import Mathlib

set_option autoImplicit false

/-!
Verification of the tender-project-manager requirement-graph core.

The Python modules `src/core/graph.py`, `src/core/todo.py` and
`src/core/extractor.py` are shallowly embedded below.  Python `dict`s
(string-keyed, insertion ordered, unique keys) are modelled as ordered
association lists; `datetime` values are modelled as a record of calendar
fields together with an executable ISO printer/parser; Python floats are
modelled as rationals.
-/

namespace TenderSpec

/-- A Python `dict` with string keys: an insertion-ordered association list.
All dictionaries produced by the embedded operations have unique keys,
mirroring real Python dictionaries. -/
abbrev PyDict (α : Type) := List (String × α)

/-- Python `d.get(k)` / `d[k]` lookup (first matching key). -/
def dget {α : Type} : PyDict α → String → Option α
  | [], _ => none
  | (k', v) :: rest, k => if k' = k then some v else dget rest k

/-- Python `d[k] = v`: replace the value in place if the key is present,
otherwise append the new pair at the end. -/
def dset {α : Type} : PyDict α → String → α → PyDict α
  | [], k, v => [(k, v)]
  | (k', v') :: rest, k, v =>
      if k' = k then (k, v) :: rest else (k', v') :: dset rest k v

/-- Python `del d[k]` (removes the first pair with the given key). -/
def ddel {α : Type} : PyDict α → String → PyDict α
  | [], _ => []
  | (k', v') :: rest, k => if k' = k then rest else (k', v') :: ddel rest k

/-- Python `d.values()` in insertion order. -/
def dvalues {α : Type} (d : PyDict α) : List α := d.map Prod.snd

/-- Python `d1.update(d2)`: write every pair of `d2` into `d1` in order. -/
def dupdate {α : Type} (d1 d2 : PyDict α) : PyDict α :=
  d2.foldl (fun acc kv => dset acc kv.1 kv.2) d1

/-- The keys of a dictionary, in order. -/
def dkeys {α : Type} (d : PyDict α) : List String := d.map Prod.fst

@[simp] theorem dget_nil {α : Type} (k : String) : dget ([] : PyDict α) k = none := rfl

theorem dget_cons {α : Type} (k' k : String) (v : α) (rest : PyDict α) :
    dget ((k', v) :: rest) k = if k' = k then some v else dget rest k := rfl

theorem dget_dset_self {α : Type} (d : PyDict α) (k : String) (v : α) :
    dget (dset d k v) k = some v := by
  induction d with
  | nil => simp [dget, dset]
  | cons hd tl ih =>
      obtain ⟨k', v'⟩ := hd
      by_cases h : k' = k
      · simp [dget, dset, h]
      · simp [dget, dset, h, ih]

theorem dget_dset_ne {α : Type} (d : PyDict α) (k k' : String) (v : α) (h : k ≠ k') :
    dget (dset d k v) k' = dget d k' := by
  induction d with
  | nil => simp [dget, dset, h]
  | cons hd tl ih =>
      obtain ⟨k0, v0⟩ := hd
      by_cases h0 : k0 = k
      · subst h0
        simp [dget, dset, h]
      · simp only [dset, if_neg h0]
        by_cases h1 : k0 = k'
        · simp [dget, h1]
        · simp [dget, h1, ih]

theorem dget_dset {α : Type} (d : PyDict α) (k k' : String) (v : α) :
    dget (dset d k v) k' = if k = k' then some v else dget d k' := by
  by_cases h : k = k'
  · subst h; simp [dget_dset_self]
  · simp [h, dget_dset_ne d k k' v h]

theorem dkeys_dset {α : Type} (d : PyDict α) (k : String) (v : α) :
    dkeys (dset d k v) = if (dget d k).isSome then dkeys d else dkeys d ++ [k] := by
  induction d with
  | nil => simp [dkeys, dset, dget]
  | cons hd tl ih =>
      obtain ⟨k0, v0⟩ := hd
      by_cases h : k0 = k
      · subst h
        simp [dkeys, dset, dget]
      · simp only [dset, if_neg h, dget, dkeys, List.map_cons]
        rw [dkeys] at ih
        rw [ih]
        by_cases h2 : (dget tl k).isSome <;> simp [h2, dkeys]

theorem dget_eq_none {α : Type} {d : PyDict α} {k : String} (h : k ∉ dkeys d) :
    dget d k = none := by
  induction d with
  | nil => rfl
  | cons hd tl ih =>
      obtain ⟨k0, v0⟩ := hd
      simp only [dkeys, List.map_cons, List.mem_cons] at h
      push_neg at h
      rw [dget, if_neg (fun he => h.1 he.symm)]
      exact ih h.2

theorem dget_ddel {α : Type} (d : PyDict α) (k k' : String)
    (hnd : (dkeys d).Nodup) :
    dget (ddel d k) k' = if k = k' then none else dget d k' := by
  induction d with
  | nil => simp [ddel, dget]
  | cons hd tl ih =>
      obtain ⟨k0, v0⟩ := hd
      simp only [dkeys, List.map_cons, List.nodup_cons] at hnd
      obtain ⟨hk0, htl⟩ := hnd
      by_cases h : k0 = k
      · subst h
        rw [ddel, if_pos rfl]
        by_cases h' : k0 = k'
        · subst h'
          rw [if_pos rfl]
          exact dget_eq_none hk0
        · rw [if_neg h', dget, if_neg h']
      · rw [ddel, if_neg h, dget]
        by_cases h' : k0 = k'
        · subst h'
          rw [if_pos rfl, if_neg (fun he => h he.symm), dget, if_pos rfl]
        · rw [if_neg h', ih htl, dget, if_neg h']

theorem dkeys_ddel {α : Type} (d : PyDict α) (k : String) :
    dkeys (ddel d k) = if (dget d k).isSome then (dkeys d).eraseP (fun x => x = k) else dkeys d := by
  induction d with
  | nil => simp [ddel, dget, dkeys]
  | cons hd tl ih =>
      obtain ⟨k0, v0⟩ := hd
      by_cases h : k0 = k
      · subst h
        simp [ddel, dget, dkeys, List.eraseP_cons]
      · simp only [ddel, if_neg h, dget, if_neg h, dkeys, List.map_cons]
        rw [dkeys] at ih
        rw [ih]
        by_cases h2 : (dget tl k).isSome
        · simp [h2, List.eraseP_cons, h, dkeys]
        · simp [h2, dkeys]

theorem mem_dkeys_of_dget {α : Type} {d : PyDict α} {k : String}
    (h : (dget d k).isSome) : k ∈ dkeys d := by
  by_contra hk
  rw [dget_eq_none hk] at h
  simp at h

theorem dget_isSome_of_mem_dkeys {α : Type} {d : PyDict α} {k : String}
    (h : k ∈ dkeys d) : (dget d k).isSome := by
  induction d with
  | nil => simp [dkeys] at h
  | cons hd tl ih =>
      obtain ⟨k0, v0⟩ := hd
      by_cases h0 : k0 = k
      · rw [dget, if_pos h0]; rfl
      · simp only [dkeys, List.map_cons, List.mem_cons] at h
        rcases h with h | h
        · exact absurd h.symm h0
        · rw [dget, if_neg h0]
          exact ih h

theorem ddel_nodup {α : Type} (d : PyDict α) (k : String) (hnd : (dkeys d).Nodup) :
    (dkeys (ddel d k)).Nodup := by
  rw [dkeys_ddel]
  by_cases h : (dget d k).isSome
  · rw [if_pos h]
    exact List.Nodup.sublist (List.eraseP_sublist _) hnd
  · rw [if_neg h]
    exact hnd

theorem dset_nodup {α : Type} (d : PyDict α) (k : String) (v : α) (hnd : (dkeys d).Nodup) :
    (dkeys (dset d k v)).Nodup := by
  rw [dkeys_dset]
  by_cases h : (dget d k).isSome
  · rw [if_pos h]; exact hnd
  · rw [if_neg h]
    rw [List.nodup_append]
    refine ⟨hnd, List.nodup_singleton k, ?_⟩
    intro a ha hb
    simp only [List.mem_singleton] at hb
    subst hb
    exact h (dget_isSome_of_mem_dkeys ha)

theorem dget_mem {α : Type} {d : PyDict α} {k : String} {v : α}
    (h : dget d k = some v) : (k, v) ∈ d := by
  induction d with
  | nil => simp [dget] at h
  | cons hd tl ih =>
      obtain ⟨k0, v0⟩ := hd
      by_cases h0 : k0 = k
      · subst h0
        rw [dget, if_pos rfl] at h
        injection h with h
        subst h
        exact List.mem_cons_self _ _
      · rw [dget, if_neg h0] at h
        exact List.mem_cons_of_mem _ (ih h)

theorem mem_dget {α : Type} {d : PyDict α} {k : String} {v : α}
    (hnd : (dkeys d).Nodup) (h : (k, v) ∈ d) : dget d k = some v := by
  induction d with
  | nil => simp at h
  | cons hd tl ih =>
      obtain ⟨k0, v0⟩ := hd
      simp only [dkeys, List.map_cons, List.nodup_cons] at hnd
      rcases List.mem_cons.mp h with h1 | h1
      · rw [Prod.mk.injEq] at h1
        obtain ⟨rfl, rfl⟩ := h1
        rw [dget, if_pos rfl]
      · have hk : k0 ≠ k := by
          intro he
          subst he
          exact hnd.1 (List.mem_map_of_mem Prod.fst h1)
        rw [dget, if_neg hk]
        exact ih hnd.2 h1

theorem dlength_dset {α : Type} (d : PyDict α) (k : String) (v : α) :
    (dset d k v).length = if (dget d k).isSome then d.length else d.length + 1 := by
  induction d with
  | nil => simp [dset, dget]
  | cons hd tl ih =>
      obtain ⟨k0, v0⟩ := hd
      by_cases h : k0 = k
      · simp [dset, dget, h]
      · simp only [dset, if_neg h, dget, if_neg h, List.length_cons, ih]
        by_cases h2 : (dget tl k).isSome <;> simp [h2]

theorem dlength_ddel {α : Type} (d : PyDict α) (k : String) :
    (ddel d k).length = if (dget d k).isSome then d.length - 1 else d.length := by
  induction d with
  | nil => simp [ddel, dget]
  | cons hd tl ih =>
      obtain ⟨k0, v0⟩ := hd
      by_cases h : k0 = k
      · simp [ddel, dget, h]
      · simp only [ddel, if_neg h, dget, if_neg h, List.length_cons, ih]
        by_cases h2 : (dget tl k).isSome
        · simp only [h2, if_pos]
          have : 1 ≤ tl.length := by
            cases tl with
            | nil => simp [dget] at h2
            | cons a b => simp
          omega
        · simp [h2]

theorem dlength_le_dset {α : Type} (d : PyDict α) (k : String) (v : α) :
    d.length ≤ (dset d k v).length := by
  rw [dlength_dset]
  by_cases h : (dget d k).isSome <;> simp [h]

theorem dget_dupdate {α : Type} (d1 d2 : PyDict α) (k : String)
    (hnd : (dkeys d2).Nodup) :
    dget (dupdate d1 d2) k =
      if (dget d2 k).isSome then dget d2 k else dget d1 k := by
  induction d2 generalizing d1 with
  | nil => simp [dupdate, dget]
  | cons hd tl ih =>
      obtain ⟨k0, v0⟩ := hd
      simp only [dkeys, List.map_cons, List.nodup_cons] at hnd
      simp only [dupdate, List.foldl_cons]
      rw [show (List.foldl (fun acc kv => dset acc kv.1 kv.2) (dset d1 k0 v0) tl) =
            dupdate (dset d1 k0 v0) tl from rfl]
      rw [ih (dset d1 k0 v0) hnd.2]
      by_cases h : k0 = k
      · subst h
        have htl : dget tl k0 = none := by
          cases he : dget tl k0 with
          | none => rfl
          | some v =>
              exact absurd (List.mem_map_of_mem Prod.fst (dget_mem he)) hnd.1
        simp [dget, htl, dget_dset_self]
      · simp only [dget, if_neg h]
        cases htl : dget tl k with
        | none => simp [dget_dset_ne d1 k0 k v0 h]
        | some v => simp

/-! ### Decimal digits and Python `datetime` with its ISO textual form -/

/-- The character for the decimal digit `n % 10`. -/
def digitCh (n : Nat) : Char := Char.ofNat (48 + n % 10)

/-- Big-endian decimal digit characters of `n` (empty for `n = 0`), with
explicit fuel to make the division recursion structural. -/
def natCharsAux : Nat → Nat → List Char
  | 0, _ => []
  | fuel + 1, n => if n = 0 then [] else natCharsAux fuel (n / 10) ++ [digitCh (n % 10)]

/-- Decimal representation of a natural number as characters. -/
def natChars (n : Nat) : List Char := if n = 0 then ['0'] else natCharsAux n n

/-- Zero-padding to width `w`, as in Python `%0wd` formatting. -/
def padChars (w : Nat) (n : Nat) : List Char :=
  List.replicate (w - (natChars n).length) '0' ++ natChars n

/-- Test for an ASCII decimal digit. -/
def isDigitCh (c : Char) : Bool := 48 ≤ c.toNat && c.toNat ≤ 57

/-- Split a character list into its longest digit prefix and the remainder. -/
def takeDigits : List Char → List Char × List Char
  | [] => ([], [])
  | c :: cs =>
      if isDigitCh c then
        let p := takeDigits cs
        (c :: p.1, p.2)
      else ([], c :: cs)

/-- Numeric value of a big-endian digit-character list. -/
def digitsVal (ds : List Char) : Nat :=
  ds.foldl (fun acc c => acc * 10 + (c.toNat - 48)) 0

theorem digitCh_toNat (n : Nat) : (digitCh n).toNat = 48 + n % 10 := by
  have h : n % 10 < 10 := Nat.mod_lt _ (by norm_num)
  have hv : (48 + n % 10).isValidChar := by
    left
    omega
  simp only [digitCh, Char.ofNat, hv, dif_pos]
  rfl

theorem digitCh_isDigit (n : Nat) : isDigitCh (digitCh n) = true := by
  have h : n % 10 < 10 := Nat.mod_lt _ (by norm_num)
  simp only [isDigitCh, digitCh_toNat, Bool.and_eq_true, decide_eq_true_eq]
  omega

theorem natCharsAux_digits {fuel n : Nat} : ∀ c ∈ natCharsAux fuel n, isDigitCh c = true := by
  induction fuel generalizing n with
  | zero => intro c hc; simp [natCharsAux] at hc
  | succ fuel ih =>
      intro c hc
      by_cases h : n = 0
      · simp [natCharsAux, h] at hc
      · simp only [natCharsAux, if_neg h, List.mem_append, List.mem_singleton] at hc
        rcases hc with hc | hc
        · exact ih c hc
        · subst hc; exact digitCh_isDigit _

theorem natChars_digits {n : Nat} : ∀ c ∈ natChars n, isDigitCh c = true := by
  intro c hc
  by_cases h : n = 0
  · simp only [natChars, if_pos h, List.mem_singleton] at hc
    subst hc; rfl
  · simp only [natChars, if_neg h] at hc
    exact natCharsAux_digits c hc

theorem padChars_digits {w n : Nat} : ∀ c ∈ padChars w n, isDigitCh c = true := by
  intro c hc
  simp only [padChars, List.mem_append, List.mem_replicate] at hc
  rcases hc with hc | hc
  · rw [hc.2]; rfl
  · exact natChars_digits c hc

theorem foldl_natCharsAux (fuel n acc : Nat) (h : n ≤ fuel) :
    List.foldl (fun acc c => acc * 10 + (c.toNat - 48)) acc (natCharsAux fuel n) =
      acc * 10 ^ (natCharsAux fuel n).length + n := by
  induction fuel generalizing n acc with
  | zero =>
      have : n = 0 := Nat.le_zero.mp h
      simp [natCharsAux, this]
  | succ fuel ih =>
      by_cases h0 : n = 0
      · simp [natCharsAux, h0]
      · have hdiv : n / 10 ≤ fuel := by
          have : n / 10 < n := Nat.div_lt_self (Nat.pos_of_ne_zero h0) (by norm_num)
          omega
        simp only [natCharsAux, if_neg h0, List.foldl_append, List.foldl_cons, List.foldl_nil,
          List.length_append, List.length_singleton]
        rw [ih _ _ hdiv, digitCh_toNat]
        have h48 : 48 + n % 10 % 10 - 48 = n % 10 := by omega
        rw [h48]
        have hd : n / 10 * 10 + n % 10 = n := by omega
        calc (acc * 10 ^ (natCharsAux fuel (n / 10)).length + n / 10) * 10 + n % 10
            = acc * (10 ^ (natCharsAux fuel (n / 10)).length * 10) +
                (n / 10 * 10 + n % 10) := by ring
          _ = acc * 10 ^ ((natCharsAux fuel (n / 10)).length + 1) + n := by
                rw [hd, pow_succ]

theorem digitsVal_padChars (w n : Nat) : digitsVal (padChars w n) = n := by
  simp only [digitsVal, padChars, List.foldl_append]
  have hz : List.foldl (fun acc c => acc * 10 + (c.toNat - 48)) 0
      (List.replicate (w - (natChars n).length) '0') = 0 := by
    induction (w - (natChars n).length) with
    | zero => rfl
    | succ m ih => simpa [List.replicate_succ] using ih
  rw [hz]
  by_cases h : n = 0
  · simp [natChars, h, digitsVal]
  · simp only [natChars, if_neg h]
    rw [foldl_natCharsAux n n 0 le_rfl]
    simp

theorem takeDigits_append_sep (ds rest : List Char)
    (hds : ∀ c ∈ ds, isDigitCh c = true)
    (hrest : rest = [] ∨ ∃ c cs, rest = c :: cs ∧ isDigitCh c = false) :
    takeDigits (ds ++ rest) = (ds, rest) := by
  induction ds with
  | nil =>
      rcases hrest with h | ⟨c, cs, rfl, hc⟩
      · simp [h, takeDigits]
      · simp [takeDigits, hc]
  | cons c cs ih =>
      have hc : isDigitCh c = true := hds c (List.mem_cons_self _ _)
      have ih' := ih (fun x hx => hds x (List.mem_cons_of_mem _ hx))
      simp only [List.cons_append, takeDigits, hc, if_pos, List.append_eq, ih']

theorem takeDigits_pad_cons (w n : Nat) (c : Char) (rest : List Char)
    (hc : isDigitCh c = false) :
    takeDigits (padChars w n ++ c :: rest) = (padChars w n, c :: rest) :=
  takeDigits_append_sep _ _ padChars_digits (Or.inr ⟨c, rest, rfl, hc⟩)

theorem takeDigits_pad_nil (w n : Nat) :
    takeDigits (padChars w n) = (padChars w n, []) := by
  have := takeDigits_append_sep (padChars w n) [] padChars_digits (Or.inl rfl)
  simpa using this

/-- Model of Python `datetime.datetime`: a record of calendar fields. -/
structure Datetime where
  year : Nat
  month : Nat
  day : Nat
  hour : Nat
  minute : Nat
  second : Nat
  microsecond : Nat
deriving DecidableEq, Repr

/-- `datetime.isoformat()`: `YYYY-MM-DDTHH:MM:SS` with a `.ffffff`
microsecond suffix exactly when the microsecond field is nonzero. -/
def Datetime.isoChars (d : Datetime) : List Char :=
  padChars 4 d.year ++ '-' :: (padChars 2 d.month ++ '-' :: (padChars 2 d.day ++
  'T' :: (padChars 2 d.hour ++ ':' :: (padChars 2 d.minute ++ ':' :: (padChars 2 d.second ++
  (if d.microsecond = 0 then [] else '.' :: padChars 6 d.microsecond))))))

def Datetime.isoformat (d : Datetime) : String := String.mk d.isoChars

/-- `datetime.fromisoformat` on the character level: parse the canonical
layout produced by `isoformat`, returning `none` on any malformed input. -/
def parseIsoChars (cs : List Char) : Option Datetime :=
  let py := takeDigits cs
  match py.2 with
  | '-' :: r1 =>
    let pm := takeDigits r1
    match pm.2 with
    | '-' :: r2 =>
      let pd := takeDigits r2
      match pd.2 with
      | 'T' :: r3 =>
        let ph := takeDigits r3
        match ph.2 with
        | ':' :: r4 =>
          let pmi := takeDigits r4
          match pmi.2 with
          | ':' :: r5 =>
            let ps := takeDigits r5
            match ps.2 with
            | [] => some ⟨digitsVal py.1, digitsVal pm.1, digitsVal pd.1,
                digitsVal ph.1, digitsVal pmi.1, digitsVal ps.1, 0⟩
            | '.' :: r6 =>
              let pus := takeDigits r6
              match pus.2 with
              | [] => some ⟨digitsVal py.1, digitsVal pm.1, digitsVal pd.1,
                  digitsVal ph.1, digitsVal pmi.1, digitsVal ps.1, digitsVal pus.1⟩
              | _ => none
            | _ => none
          | _ => none
        | _ => none
      | _ => none
    | _ => none
  | _ => none

def fromisoformat (s : String) : Option Datetime := parseIsoChars s.data

/-- The ISO textual form of a timestamp parses back to the same timestamp. -/
theorem fromisoformat_isoformat (d : Datetime) :
    fromisoformat (Datetime.isoformat d) = some d := by
  obtain ⟨y, mo, da, hh, mi, ss, us⟩ := d
  show parseIsoChars (Datetime.isoChars ⟨y, mo, da, hh, mi, ss, us⟩) = _
  have e1 : ∀ r, takeDigits (padChars 4 y ++ '-' :: r) = (padChars 4 y, '-' :: r) :=
    fun r => takeDigits_pad_cons 4 y '-' r (by decide)
  have e2 : ∀ r, takeDigits (padChars 2 mo ++ '-' :: r) = (padChars 2 mo, '-' :: r) :=
    fun r => takeDigits_pad_cons 2 mo '-' r (by decide)
  have e3 : ∀ r, takeDigits (padChars 2 da ++ 'T' :: r) = (padChars 2 da, 'T' :: r) :=
    fun r => takeDigits_pad_cons 2 da 'T' r (by decide)
  have e4 : ∀ r, takeDigits (padChars 2 hh ++ ':' :: r) = (padChars 2 hh, ':' :: r) :=
    fun r => takeDigits_pad_cons 2 hh ':' r (by decide)
  have e5 : ∀ r, takeDigits (padChars 2 mi ++ ':' :: r) = (padChars 2 mi, ':' :: r) :=
    fun r => takeDigits_pad_cons 2 mi ':' r (by decide)
  have e6 : ∀ r, takeDigits (padChars 2 ss ++ '.' :: r) = (padChars 2 ss, '.' :: r) :=
    fun r => takeDigits_pad_cons 2 ss '.' r (by decide)
  by_cases h : us = 0
  · simp only [Datetime.isoChars, if_pos h, List.append_nil, parseIsoChars,
      e1, e2, e3, e4, e5, takeDigits_pad_nil 2 ss]
    simp [digitsVal_padChars, h]
  · simp only [Datetime.isoChars, if_neg h, parseIsoChars, e1, e2, e3, e4, e5, e6,
      takeDigits_pad_nil 6 us]
    simp [digitsVal_padChars]

/-! ### Enumerations and records of `src/core/graph.py` -/

inductive NodeType
  | document
  | requirement
  | condition
  | checkbox
  | signature
  | field
  | attachment
  | deadline
deriving DecidableEq, Repr

def NodeType.value : NodeType → String
  | .document => "document"
  | .requirement => "requirement"
  | .condition => "condition"
  | .checkbox => "checkbox"
  | .signature => "signature"
  | .field => "field"
  | .attachment => "attachment"
  | .deadline => "deadline"

/-- The `NodeType(...)` enum constructor: recover a member from its string
value, failing on anything else (Python raises `ValueError`). -/
def nodeTypeOfString (s : String) : Option NodeType :=
  if s = "document" then some .document
  else if s = "requirement" then some .requirement
  else if s = "condition" then some .condition
  else if s = "checkbox" then some .checkbox
  else if s = "signature" then some .signature
  else if s = "field" then some .field
  else if s = "attachment" then some .attachment
  else if s = "deadline" then some .deadline
  else none

inductive EdgeType
  | requires
  | required_by
  | conditional_on
  | triggers
  | part_of
  | references
  | mutually_exclusive
  | depends_on
deriving DecidableEq, Repr

def EdgeType.value : EdgeType → String
  | .requires => "requires"
  | .required_by => "required_by"
  | .conditional_on => "conditional_on"
  | .triggers => "triggers"
  | .part_of => "part_of"
  | .references => "references"
  | .mutually_exclusive => "mutually_exclusive"
  | .depends_on => "depends_on"

def edgeTypeOfString (s : String) : Option EdgeType :=
  if s = "requires" then some .requires
  else if s = "required_by" then some .required_by
  else if s = "conditional_on" then some .conditional_on
  else if s = "triggers" then some .triggers
  else if s = "part_of" then some .part_of
  else if s = "references" then some .references
  else if s = "mutually_exclusive" then some .mutually_exclusive
  else if s = "depends_on" then some .depends_on
  else none

inductive CompletionStatus
  | not_started
  | in_progress
  | completed
  | not_applicable
  | blocked
deriving DecidableEq, Repr

def CompletionStatus.value : CompletionStatus → String
  | .not_started => "not_started"
  | .in_progress => "in_progress"
  | .completed => "completed"
  | .not_applicable => "not_applicable"
  | .blocked => "blocked"

def completionStatusOfString (s : String) : Option CompletionStatus :=
  if s = "not_started" then some .not_started
  else if s = "in_progress" then some .in_progress
  else if s = "completed" then some .completed
  else if s = "not_applicable" then some .not_applicable
  else if s = "blocked" then some .blocked
  else none

/-- Values stored in the open `metadata` dictionaries of nodes and edges
(the code only ever stores booleans, strings and `None` there). -/
inductive MetaVal
  | boolVal (b : Bool)
  | strVal (s : String)
  | noneVal
deriving DecidableEq, Repr

/-- A node of the requirement graph (`Node` dataclass). -/
structure Node where
  id : String
  type : NodeType
  title : String
  description : String
  status : CompletionStatus
  source_document : Option String
  source_location : Option String
  source_text : Option String
  checkbox_state : Option Bool
  condition_met : Option Bool
  deadline : Option Datetime
  created_at : Datetime
  updated_at : Datetime
  confidence : Rat
  tags : List String
  metadata : PyDict MetaVal
  notes : Option String
deriving DecidableEq, Repr

/-- An edge of the requirement graph (`Edge` dataclass). -/
structure Edge where
  id : String
  source_id : String
  target_id : String
  type : EdgeType
  description : Option String
  confidence : Rat
  metadata : PyDict MetaVal
deriving DecidableEq, Repr

/-- The `RequirementGraph`: node and edge stores plus the two adjacency
indices (node id to outgoing / incoming edge ids). -/
structure Graph where
  nodes : PyDict Node
  edges : PyDict Edge
  adjacency : PyDict (List String)
  reverse_adjacency : PyDict (List String)
deriving DecidableEq, Repr

def emptyGraph : Graph := ⟨[], [], [], []⟩

/-! ### Graph operations of `src/core/graph.py` -/

def add_node (g : Graph) (n : Node) : Graph :=
  { nodes := dset g.nodes n.id n
    edges := g.edges
    adjacency := if (dget g.adjacency n.id).isSome then g.adjacency else dset g.adjacency n.id []
    reverse_adjacency :=
      if (dget g.reverse_adjacency n.id).isSome then g.reverse_adjacency
      else dset g.reverse_adjacency n.id [] }

def add_edge (g : Graph) (e : Edge) : Graph :=
  { nodes := g.nodes
    edges := dset g.edges e.id e
    adjacency := dset g.adjacency e.source_id ((dget g.adjacency e.source_id).getD [] ++ [e.id])
    reverse_adjacency :=
      dset g.reverse_adjacency e.target_id
        ((dget g.reverse_adjacency e.target_id).getD [] ++ [e.id]) }

def get_node (g : Graph) (node_id : String) : Option Node := dget g.nodes node_id

/-- `get_outgoing_edges`; edge ids missing from the edge store are skipped
(on graphs built through the API the indices only hold ids of stored
edges, so this agrees with the Python list comprehension). -/
def get_outgoing_edges (g : Graph) (node_id : String) : List Edge :=
  ((dget g.adjacency node_id).getD []).filterMap (dget g.edges)

def get_incoming_edges (g : Graph) (node_id : String) : List Edge :=
  ((dget g.reverse_adjacency node_id).getD []).filterMap (dget g.edges)

/-- Faulting variant of `get_outgoing_edges`: `none` exactly when the
Python comprehension `[self.edges[eid] for eid in edge_ids]` would raise
a `KeyError`. -/
def get_outgoing_edges_checked (g : Graph) (node_id : String) : Option (List Edge) :=
  ((dget g.adjacency node_id).getD []).mapM (dget g.edges)

def get_incoming_edges_checked (g : Graph) (node_id : String) : Option (List Edge) :=
  ((dget g.reverse_adjacency node_id).getD []).mapM (dget g.edges)

/-- Membership of the edge type in `(DEPENDS_ON, REQUIRES, CONDITIONAL_ON)`. -/
def isDependencyEdge (e : Edge) : Bool :=
  decide (e.type = EdgeType.depends_on ∨ e.type = EdgeType.requires ∨
    e.type = EdgeType.conditional_on)

def get_dependencies (g : Graph) (node_id : String) : List Node :=
  ((get_outgoing_edges g node_id).filter isDependencyEdge).filterMap
    (fun e => get_node g e.target_id)

def get_dependents (g : Graph) (node_id : String) : List Node :=
  ((get_incoming_edges g node_id).filter isDependencyEdge).filterMap
    (fun e => get_node g e.source_id)

def get_dependencies_checked (g : Graph) (node_id : String) : Option (List Node) :=
  (get_outgoing_edges_checked g node_id).map
    (fun es => (es.filter isDependencyEdge).filterMap (fun e => get_node g e.target_id))

def get_dependents_checked (g : Graph) (node_id : String) : Option (List Node) :=
  (get_incoming_edges_checked g node_id).map
    (fun es => (es.filter isDependencyEdge).filterMap (fun e => get_node g e.source_id))

def get_nodes_by_document (g : Graph) (document_path : String) : List Node :=
  (dvalues g.nodes).filter (fun n => decide (n.source_document = some document_path))

/-- Model of Python `str.lower` for the character range the code meets
(ASCII letters and the German capital umlauts). -/
def pyLowerChar (c : Char) : Char :=
  if (65 ≤ c.toNat ∧ c.toNat ≤ 90) ∨ c.toNat = 196 ∨ c.toNat = 214 ∨ c.toNat = 220 then
    Char.ofNat (c.toNat + 32)
  else c

def pyLower (s : String) : String := String.mk (s.data.map pyLowerChar)

/-- Python `pat in hay` substring test. -/
def strContains (hay pat : String) : Bool := decide (List.IsInfix pat.data hay.data)

/-- An ASCII whitespace character (the set Python `str.strip` removes). -/
def isSpaceCh (c : Char) : Bool :=
  c = ' ' || c = '\t' || c = '\n' || c = '\r' || c.toNat = 11 || c.toNat = 12

/-- Model of Python `str.strip()`. -/
def pyStrip (s : String) : String :=
  String.mk (((s.data.dropWhile isSpaceCh).reverse.dropWhile isSpaceCh).reverse)

def find_nodes (g : Graph) (query : String) : List Node :=
  let query_lower := pyLower query
  (dvalues g.nodes).filter (fun n =>
    strContains (pyLower n.title) query_lower ||
    strContains (pyLower n.description) query_lower)

/-- One iteration of `_propagate_completion`: re-reads the dependent and,
if it is blocked with all direct dependencies completed, moves it to
`not_started`. -/
def propagateStep (now : Datetime) (g : Graph) (dependent_id : String) : Graph :=
  match dget g.nodes dependent_id with
  | none => g
  | some dep =>
      if dep.status = CompletionStatus.blocked then
        if (get_dependencies g dependent_id).all
            (fun d => decide (d.status = CompletionStatus.completed)) then
          let dep2 : Node := { dep with status := CompletionStatus.not_started, updated_at := now }
          { g with nodes := dset g.nodes dependent_id dep2 }
        else g
      else g

def propagate_completion (g : Graph) (completed_node_id : String) (now : Datetime) : Graph :=
  ((get_dependents g completed_node_id).map (fun n => n.id)).foldl (propagateStep now) g

def update_status (g : Graph) (node_id : String) (status : CompletionStatus)
    (now : Datetime) : Graph :=
  match dget g.nodes node_id with
  | none => g
  | some node =>
      let g1 : Graph :=
        { g with nodes := dset g.nodes node_id { node with status := status, updated_at := now } }
      if status = CompletionStatus.completed then propagate_completion g1 node_id now else g1

def get_actionable_items (g : Graph) : List Node :=
  (dvalues g.nodes).filter (fun n =>
    decide (n.status = CompletionStatus.not_started ∨ n.status = CompletionStatus.in_progress) &&
    (get_dependencies g n.id).all (fun d =>
      decide (d.status = CompletionStatus.completed ∨
        d.status = CompletionStatus.not_applicable)))

/-- Count of nodes carrying a given status. -/
def statusCount (g : Graph) (st : CompletionStatus) : Nat :=
  ((dvalues g.nodes).filter (fun n => decide (n.status = st))).length

/-- Python `round(x, 1)` on our rational model of floats: scale by ten and
round half to even. -/
def pyRound1 (q : Rat) : Rat :=
  let x := q * 10
  let f : Int := ⌊x⌋
  let n : Int :=
    if x - f < 1/2 then f
    else if x - f > 1/2 then f + 1
    else if f % 2 = 0 then f else f + 1
  (n : Rat) / 10

structure CompletionStats where
  total_nodes : Nat
  by_status : CompletionStatus → Nat
  completion_percentage : Rat
  applicable_items : Nat
  completed_items : Nat

def get_completion_stats (g : Graph) : CompletionStats :=
  let total := g.nodes.length
  let completed := statusCount g CompletionStatus.completed
  let not_applicable := statusCount g CompletionStatus.not_applicable
  let applicable_total := total - not_applicable
  let percentage : Rat :=
    if 0 < applicable_total then (completed : Rat) / (applicable_total : Rat) * 100 else 0
  { total_nodes := total
    by_status := statusCount g
    completion_percentage := pyRound1 percentage
    applicable_items := applicable_total
    completed_items := completed }

/-- Python truthiness of an optional string (`None` and `""` are falsy). -/
def optStrTruthy : Option String → Bool
  | none => false
  | some s => !s.isEmpty

/-- Rewrite every listed edge in place with `upd` (skipping ids without a
stored edge; on graphs built through the API the ids are always
present, matching the Python loops that mutate the fetched edge
objects). -/
def repointFold (upd : Edge → Edge) (edges : PyDict Edge) (ids : List String) : PyDict Edge :=
  ids.foldl (fun es eid =>
    match dget es eid with
    | some e => dset es eid (upd e)
    | none => es) edges

/-- The incoming transfer loop of `merge_duplicate_nodes`:
`edge.target_id = keep_id`. -/
def repointTargets (edges : PyDict Edge) (ids : List String) (keep : String) : PyDict Edge :=
  repointFold (fun e => { e with target_id := keep }) edges ids

/-- The outgoing transfer loop: `edge.source_id = keep_id`. -/
def repointSources (edges : PyDict Edge) (ids : List String) (keep : String) : PyDict Edge :=
  repointFold (fun e => { e with source_id := keep }) edges ids

/-- The in-place field merge performed on the kept node: tag union
(modelled by `dedup`, since Python's `list(set(...))` order is
unspecified), `dict.update` of the metadata, and the `source_text`
backfill. -/
def mergedNode (node1 node2 : Node) : Node :=
  { node1 with
    tags := (node1.tags ++ node2.tags).dedup
    metadata := dupdate node1.metadata node2.metadata
    source_text :=
      if optStrTruthy node2.source_text && !optStrTruthy node1.source_text then
        node2.source_text
      else node1.source_text }

/-- Body of `merge_duplicate_nodes` once both nodes were found. -/
def mergeWith (g : Graph) (node_id_1 node_id_2 : String) (node1 node2 : Node) : Graph :=
  let inIds := (dget g.reverse_adjacency node_id_2).getD []
  let edges1 := repointTargets g.edges inIds node_id_1
  let radj1 := dset g.reverse_adjacency node_id_1
    ((dget g.reverse_adjacency node_id_1).getD [] ++ inIds)
  let outIds := (dget g.adjacency node_id_2).getD []
  let edges2 := repointSources edges1 outIds node_id_1
  let adj1 := dset g.adjacency node_id_1
    ((dget g.adjacency node_id_1).getD [] ++ outIds)
  { nodes := ddel (dset g.nodes node_id_1 (mergedNode node1 node2)) node_id_2
    edges := edges2
    adjacency := ddel adj1 node_id_2
    reverse_adjacency := ddel radj1 node_id_2 }

def merge_duplicate_nodes (g : Graph) (node_id_1 node_id_2 : String) : Graph :=
  match dget g.nodes node_id_1, dget g.nodes node_id_2 with
  | some node1, some node2 => mergeWith g node_id_1 node_id_2 node1 node2
  | _, _ => g

/-! ### Serialization (`to_dict` / `from_dict`) -/

/-- The fixed-key dictionary produced by `Node.to_dict`. -/
structure NodeDict where
  id : String
  type : String
  title : String
  description : String
  status : String
  source_document : Option String
  source_location : Option String
  source_text : Option String
  checkbox_state : Option Bool
  condition_met : Option Bool
  deadline : Option String
  created_at : String
  updated_at : String
  confidence : Rat
  tags : List String
  metadata : PyDict MetaVal
  notes : Option String
deriving DecidableEq, Repr

def Node.to_dict (n : Node) : NodeDict :=
  { id := n.id
    type := n.type.value
    title := n.title
    description := n.description
    status := n.status.value
    source_document := n.source_document
    source_location := n.source_location
    source_text := n.source_text
    checkbox_state := n.checkbox_state
    condition_met := n.condition_met
    deadline := n.deadline.map Datetime.isoformat
    created_at := n.created_at.isoformat
    updated_at := n.updated_at.isoformat
    confidence := n.confidence
    tags := n.tags
    metadata := n.metadata
    notes := n.notes }

def Node.from_dict (d : NodeDict) : Option Node := do
  let ty ← nodeTypeOfString d.type
  let st ← completionStatusOfString d.status
  let dl ←
    match d.deadline with
    | none => pure (none : Option Datetime)
    | some s =>
        if s = "" then pure (none : Option Datetime)
        else do
          let x ← fromisoformat s
          pure (some x)
  let ca ← fromisoformat d.created_at
  let ua ← fromisoformat d.updated_at
  pure
    { id := d.id
      type := ty
      title := d.title
      description := d.description
      status := st
      source_document := d.source_document
      source_location := d.source_location
      source_text := d.source_text
      checkbox_state := d.checkbox_state
      condition_met := d.condition_met
      deadline := dl
      created_at := ca
      updated_at := ua
      confidence := d.confidence
      tags := d.tags
      metadata := d.metadata
      notes := d.notes }

/-- The fixed-key dictionary produced by `Edge.to_dict`. -/
structure EdgeDict where
  id : String
  source_id : String
  target_id : String
  type : String
  description : Option String
  confidence : Rat
  metadata : PyDict MetaVal
deriving DecidableEq, Repr

def Edge.to_dict (e : Edge) : EdgeDict :=
  { id := e.id
    source_id := e.source_id
    target_id := e.target_id
    type := e.type.value
    description := e.description
    confidence := e.confidence
    metadata := e.metadata }

def Edge.from_dict (d : EdgeDict) : Option Edge := do
  let ty ← edgeTypeOfString d.type
  pure
    { id := d.id
      source_id := d.source_id
      target_id := d.target_id
      type := ty
      description := d.description
      confidence := d.confidence
      metadata := d.metadata }

structure GraphDict where
  nodes : List NodeDict
  edges : List EdgeDict
deriving DecidableEq, Repr

def Graph.to_dict (g : Graph) : GraphDict :=
  { nodes := (dvalues g.nodes).map Node.to_dict
    edges := (dvalues g.edges).map Edge.to_dict }

def Graph.from_dict (gd : GraphDict) : Option Graph := do
  let ns ← gd.nodes.mapM Node.from_dict
  let es ← gd.edges.mapM Edge.from_dict
  pure (es.foldl add_edge (ns.foldl add_node emptyGraph))

/-! ### `src/core/todo.py`: priority assignment -/

inductive Priority
  | critical
  | high
  | medium
  | low
deriving DecidableEq, Repr

def CRITICAL_KEYWORDS : List String :=
  ["ausschluss", "zwingend", "muss", "pflicht", "erforderlich",
   "unbedingt", "ausgeschlossen", "nicht berücksichtigt",
   "fehlen", "mangel", "ungültig", "disqualif"]

/-- The lowered concatenation `title + description + source_text` that
`_determine_priority` scans for critical keywords. -/
def textToCheck (node : Node) : String :=
  pyLower (node.title ++ node.description ++ node.source_text.getD "")

def determine_priority (g : Graph) (node : Node) : Priority :=
  if CRITICAL_KEYWORDS.any (fun kw => strContains (textToCheck node) kw) then
    Priority.critical
  else if dget node.metadata "is_required" = some (MetaVal.boolVal true) then
    Priority.high
  else if node.type = NodeType.signature then Priority.critical
  else if node.type = NodeType.deadline then Priority.critical
  else if node.type = NodeType.document then Priority.high
  else if 3 ≤ (get_dependents g node.id).length then Priority.high
  else if (get_incoming_edges g node.id).any
      (fun e => decide (e.type.value = "conditional_on")) then
    Priority.medium
  else Priority.medium

/-! ### `src/core/extractor.py` -/

structure DocumentContent where
  path : String
  filename : String
  text : String
  error : Option String
deriving DecidableEq, Repr

def DocumentContent.is_successful (d : DocumentContent) : Bool :=
  decide (d.error = none) && !(decide (pyStrip d.text = ""))

/-- One item of the fixed extraction schema (all fields required by the
strict schema). -/
structure ExtractedItem where
  item_type : String
  title : String
  description : String
  source_text : String
  source_location : String
  is_required : Bool
  is_checked : Bool
  deadline_date : String
  confidence : Rat
  tags_csv : String
  requires_item : String
  conditional_on_item : String
deriving DecidableEq, Repr

/-- A parsed structured LLM response. -/
structure Extraction where
  document_summary : String
  document_type : String
  items : List ExtractedItem
deriving DecidableEq, Repr

structure ExtractionResult where
  document_path : String
  nodes_created : List String
  edges_created : List String
  error : Option String
deriving DecidableEq, Repr

/-- Outcome of one LLM call attempt, as seen by the retry loop: a JSON
decode failure, an empty-response `ValueError`, any other exception with
its message, or a parsed response. -/
inductive LLMOutcome
  | jsonError (msg : String)
  | emptyResponse (msg : String)
  | apiError (msg : String)
  | success (payload : Extraction)

def TRANSIENT_MARKERS : List String :=
  ["rate limit", "timeout", "connection", "temporary",
   "429", "500", "502", "503", "504", "overloaded"]

/-- The retryable-error test: some transient marker occurs in the lowered
exception text. -/
def isRetryableError (msg : String) : Bool :=
  TRANSIENT_MARKERS.any (fun m => strContains (pyLower msg) m)

def maxRetries : Nat := 3

inductive LoopOut
  | failed (err : String) (calls : Nat)
  | parsed (payload : Extraction) (calls : Nat)
deriving Repr

/-- The `for attempt in range(max_retries)` retry loop of `extract`.  The
first argument of the recursion is the remaining fuel (`maxRetries`
minus the attempt index), so the fuel-zero branch is unreachable from
the real entry point `extractLoop oracle maxRetries 0`. -/
def extractLoop (oracle : Nat → LLMOutcome) : Nat → Nat → LoopOut
  | 0, attempt => LoopOut.failed "loop exhausted" attempt
  | fuel + 1, attempt =>
      match oracle attempt with
      | LLMOutcome.success e => LoopOut.parsed e (attempt + 1)
      | LLMOutcome.jsonError m =>
          if attempt = maxRetries - 1 then
            LoopOut.failed ("Failed to parse LLM response as JSON: " ++ m) (attempt + 1)
          else extractLoop oracle fuel (attempt + 1)
      | LLMOutcome.emptyResponse m =>
          if attempt = maxRetries - 1 then
            LoopOut.failed ("Empty API response: " ++ m) (attempt + 1)
          else extractLoop oracle fuel (attempt + 1)
      | LLMOutcome.apiError m =>
          if isRetryableError m && decide (attempt < maxRetries - 1) then
            extractLoop oracle fuel (attempt + 1)
          else LoopOut.failed ("LLM API error: " ++ m) (attempt + 1)

/-- Fresh node/edge ids standing in for `str(uuid.uuid4())`. -/
def freshId (n : Nat) : String := "uuid-" ++ String.mk (natChars n)

/-- `_map_item_type`: unknown types default to `requirement`. -/
def map_item_type (type_str : String) : NodeType :=
  let s := pyLower type_str
  if s = "document" then NodeType.document
  else if s = "requirement" then NodeType.requirement
  else if s = "condition" then NodeType.condition
  else if s = "checkbox" then NodeType.checkbox
  else if s = "signature" then NodeType.signature
  else if s = "field" then NodeType.field
  else if s = "attachment" then NodeType.attachment
  else if s = "deadline" then NodeType.deadline
  else NodeType.requirement

/-- Parse the comma-joined tag string. -/
def parseTags (tags_csv : String) : List String :=
  if tags_csv = "" then []
  else ((tags_csv.splitOn ",").map pyStrip).filter (fun t => !decide (t = ""))

/-- First item pass of `extract`: create one node for the item and record
its id under its lowered title. State: graph, id counter, created node
ids, title-to-id map. -/
def processItemNode (docPath : String) (docType : String) (now : Datetime)
    (st : Graph × Nat × List String × PyDict String) (item : ExtractedItem) :
    Graph × Nat × List String × PyDict String :=
  let (g, ctr, created, titleMap) := st
  let node_type := map_item_type item.item_type
  let tags := parseTags item.tags_csv
  let nid := freshId ctr
  let baseMeta : PyDict MetaVal :=
    [("is_required", MetaVal.boolVal item.is_required),
     ("document_type", MetaVal.strVal docType)]
  let cb_state : Option Bool :=
    if node_type = NodeType.checkbox then some item.is_checked else none
  let status :=
    if node_type = NodeType.checkbox && item.is_checked then CompletionStatus.completed
    else CompletionStatus.not_started
  let hasDl := !(decide (item.deadline_date = "")) && !(decide (pyStrip item.deadline_date = ""))
  let dlMeta : Option Datetime × PyDict MetaVal :=
    if hasDl then
      match fromisoformat item.deadline_date with
      | some dt => (some dt, baseMeta)
      | none => (none, dset baseMeta "deadline_raw" (MetaVal.strVal item.deadline_date))
    else (none, baseMeta)
  let node : Node :=
    { id := nid
      type := node_type
      title := item.title
      description := item.description
      status := status
      source_document := some docPath
      source_location := some item.source_location
      source_text := some item.source_text
      checkbox_state := cb_state
      condition_met := none
      deadline := dlMeta.1
      created_at := now
      updated_at := now
      confidence := item.confidence
      tags := tags
      metadata := dlMeta.2
      notes := none }
  (add_node g node, ctr + 1, created ++ [nid], dset titleMap (pyLower item.title) nid)

/-- Resolve a textual title reference: first against this batch's
title map, then by a full-graph substring search. -/
def resolveTarget (g : Graph) (titleMap : PyDict String) (ref : String) : Option String :=
  match dget titleMap (pyLower (pyStrip ref)) with
  | some tid => some tid
  | none =>
      match find_nodes g (pyStrip ref) with
      | [] => none
      | n :: _ => some n.id

/-- Second item pass of `extract`: materialize `requires` /
`conditional_on` edges, skipping self references and unresolved titles.
State: graph, id counter, created edge ids. -/
def processItemEdges (titleMap : PyDict String)
    (st : Graph × Nat × List String) (item : ExtractedItem) : Graph × Nat × List String :=
  let (g, ctr, created) := st
  match dget titleMap (pyLower item.title) with
  | none => (g, ctr, created)
  | some source_id =>
      let st1 : Graph × Nat × List String :=
        if !(decide (item.requires_item = "")) && !(decide (pyStrip item.requires_item = "")) then
          match resolveTarget g titleMap item.requires_item with
          | some tid =>
              if tid ≠ source_id then
                let e : Edge :=
                  { id := freshId ctr
                    source_id := source_id
                    target_id := tid
                    type := EdgeType.requires
                    description := some (item.title ++ " requires " ++ item.requires_item)
                    confidence := 1
                    metadata := [] }
                (add_edge g e, ctr + 1, created ++ [e.id])
              else (g, ctr, created)
          | none => (g, ctr, created)
        else (g, ctr, created)
      let (g1, ctr1, created1) := st1
      if !(decide (item.conditional_on_item = "")) && !(decide (pyStrip item.conditional_on_item = "")) then
        match resolveTarget g1 titleMap item.conditional_on_item with
        | some tid =>
            if tid ≠ source_id then
              let e : Edge :=
                { id := freshId ctr1
                  source_id := source_id
                  target_id := tid
                  type := EdgeType.conditional_on
                  description := some (item.title ++ " conditional on " ++ item.conditional_on_item)
                  confidence := 1
                  metadata := [] }
              (add_edge g1 e, ctr1 + 1, created1 ++ [e.id])
            else (g1, ctr1, created1)
        | none => (g1, ctr1, created1)
      else (g1, ctr1, created1)

/-- Graph mutation performed by `extract` on a parsed response: node pass
then edge pass. Returns graph, next id, created node ids, created edge ids. -/
def processExtraction (docPath : String) (ext : Extraction) (g : Graph)
    (now : Datetime) (ctr : Nat) : Graph × Nat × List String × List String :=
  let st1 := ext.items.foldl (processItemNode docPath ext.document_type now) (g, ctr, [], [])
  let st2 := ext.items.foldl (processItemEdges st1.2.2.2) (st1.1, st1.2.1, [])
  (st2.1, st2.2.1, st1.2.2.1, st2.2.2)

structure ExtractOutcome where
  result : ExtractionResult
  graph : Graph
  nextId : Nat
  llmCalls : Nat

/-- `RequirementExtractor.extract`, with the LLM collaborator modelled as
an oracle from attempt index to call outcome.  `llmCalls` counts the
attempts actually consumed. -/
def extract (oracle : Nat → LLMOutcome) (document : DocumentContent) (g : Graph)
    (now : Datetime) (ctr : Nat) : ExtractOutcome :=
  if optStrTruthy document.error || !document.is_successful then
    { result :=
        { document_path := document.path
          nodes_created := []
          edges_created := []
          error := some (if optStrTruthy document.error then document.error.getD ""
            else "No content extracted") }
      graph := g
      nextId := ctr
      llmCalls := 0 }
  else
    match extractLoop oracle maxRetries 0 with
    | LoopOut.failed err calls =>
        { result :=
            { document_path := document.path
              nodes_created := []
              edges_created := []
              error := some err }
          graph := g
          nextId := ctr
          llmCalls := calls }
    | LoopOut.parsed ext calls =>
        let res := processExtraction document.path ext g now ctr
        { result :=
            { document_path := document.path
              nodes_created := res.2.2.1
              edges_created := res.2.2.2
              error := none }
          graph := res.1
          nextId := res.2.1
          llmCalls := calls }

/-- The node removal performed by `IncrementalExtractor.process_new_or_changed`
for a changed document: `del graph.nodes[node.id]` for every node whose
provenance matches — nothing else is touched. -/
def removeDocNodes (g : Graph) (path : String) : Graph :=
  { g with nodes := (get_nodes_by_document g path).foldl (fun ns n => ddel ns n.id) g.nodes }

/-- Reprocessing of one changed document by `process_new_or_changed`:
remove the old nodes, then re-extract into the same graph. -/
def processChangedDoc (oracle : Nat → LLMOutcome) (document : DocumentContent)
    (g : Graph) (now : Datetime) (ctr : Nat) : ExtractOutcome :=
  extract oracle document (removeDocNodes g document.path) now ctr

/-! ### Invariants of graphs built through the public mutation API -/

/-- Key sets of all four dictionaries are duplicate-free, and node / edge
entries are stored under their own id. -/
structure GoodKeys (g : Graph) : Prop where
  nodesNodup : (dkeys g.nodes).Nodup
  edgesNodup : (dkeys g.edges).Nodup
  adjNodup : (dkeys g.adjacency).Nodup
  revNodup : (dkeys g.reverse_adjacency).Nodup
  nodeId : ∀ k n, dget g.nodes k = some n → n.id = k
  edgeId : ∀ k e, dget g.edges k = some e → e.id = k

/-- Every edge id stored in either adjacency index refers to a stored
edge (so the Python edge-store lookups in the traversal APIs cannot
fault). -/
structure EdgeIdsOk (g : Graph) : Prop where
  adj : ∀ nid ids, dget g.adjacency nid = some ids → ∀ eid ∈ ids, (dget g.edges eid).isSome
  rev : ∀ nid ids, dget g.reverse_adjacency nid = some ids →
    ∀ eid ∈ ids, (dget g.edges eid).isSome

/-- Every stored edge is indexed under its source in the forward index
and under its target in the reverse index. -/
def Indexed (g : Graph) : Prop :=
  ∀ eid e, dget g.edges eid = some e →
    (∃ ids, dget g.adjacency e.source_id = some ids ∧ eid ∈ ids) ∧
    (∃ ids, dget g.reverse_adjacency e.target_id = some ids ∧ eid ∈ ids)

def Inv (g : Graph) : Prop := GoodKeys g ∧ EdgeIdsOk g ∧ Indexed g

/-- Graphs reachable through the public mutation API.  Self-merge is
excluded: the spec declares `merge_duplicate_nodes(x, x)` undefined
behavior, and it indeed destroys the adjacency indexing. -/
inductive Built : Graph → Prop
  | empty : Built emptyGraph
  | add_node {g : Graph} {n : Node} : Built g → Built (add_node g n)
  | add_edge {g : Graph} {e : Edge} : Built g → Built (add_edge g e)
  | update_status {g : Graph} {nid : String} {st : CompletionStatus} {now : Datetime} :
      Built g → Built (update_status g nid st now)
  | merge {g : Graph} {a b : String} :
      a ≠ b → Built g → Built (merge_duplicate_nodes g a b)

theorem emptyGraph_inv : Inv emptyGraph := by
  refine ⟨⟨?_, ?_, ?_, ?_, ?_, ?_⟩, ⟨?_, ?_⟩, ?_⟩ <;>
    simp [emptyGraph, dkeys, dget, Indexed]

/-- Overwrite one node entry with a copy carrying a new status and
timestamp (the in-place mutation both `update_status` and the
propagation loop perform). -/
def setNodeStatus (g : Graph) (nid : String) (node : Node) (st : CompletionStatus)
    (now : Datetime) : Graph :=
  { g with nodes := dset g.nodes nid { node with status := st, updated_at := now } }

/-- `propagateStep` either leaves the graph unchanged or rewrites one node
entry in place (same key, same id). -/
theorem propagateStep_cases (now : Datetime) (g : Graph) (did : String) :
    propagateStep now g did = g ∨
    ∃ dep, dget g.nodes did = some dep ∧
      propagateStep now g did = setNodeStatus g did dep CompletionStatus.not_started now := by
  unfold propagateStep
  cases hdep : dget g.nodes did with
  | none => exact Or.inl rfl
  | some dep =>
      dsimp only
      by_cases h1 : dep.status = CompletionStatus.blocked
      · rw [if_pos h1]
        by_cases h2 : (get_dependencies g did).all
            (fun d => decide (d.status = CompletionStatus.completed)) = true
        · rw [if_pos h2]
          exact Or.inr ⟨dep, rfl, rfl⟩
        · rw [if_neg h2]
          exact Or.inl rfl
      · rw [if_neg h1]
        exact Or.inl rfl

theorem goodKeys_nodes_dset {g : Graph} (gk : GoodKeys g) {nid : String} {n : Node}
    (hid : n.id = nid) : GoodKeys { g with nodes := dset g.nodes nid n } := by
  refine ⟨dset_nodup _ _ _ gk.nodesNodup, gk.edgesNodup, gk.adjNodup, gk.revNodup, ?_, gk.edgeId⟩
  intro k m hm
  simp only [dget_dset] at hm
  by_cases h : nid = k
  · rw [if_pos h] at hm
    injection hm with hm
    subst hm
    rw [hid, h]
  · rw [if_neg h] at hm
    exact gk.nodeId k m hm

theorem edgeIdsOk_of_frame {g g' : Graph} (he : g'.edges = g.edges)
    (ha : g'.adjacency = g.adjacency) (hr : g'.reverse_adjacency = g.reverse_adjacency)
    (h : EdgeIdsOk g) : EdgeIdsOk g' := by
  constructor
  · intro nid ids hlook eid hmem
    rw [he]
    exact h.adj nid ids (ha ▸ hlook) eid hmem
  · intro nid ids hlook eid hmem
    rw [he]
    exact h.rev nid ids (hr ▸ hlook) eid hmem

theorem indexed_of_frame {g g' : Graph} (he : g'.edges = g.edges)
    (ha : g'.adjacency = g.adjacency) (hr : g'.reverse_adjacency = g.reverse_adjacency)
    (h : Indexed g) : Indexed g' := by
  intro eid e hlook
  rw [he] at hlook
  rw [ha, hr]
  exact h eid e hlook

theorem propagateStep_frame (now : Datetime) (g : Graph) (did : String) :
    (propagateStep now g did).edges = g.edges ∧
    (propagateStep now g did).adjacency = g.adjacency ∧
    (propagateStep now g did).reverse_adjacency = g.reverse_adjacency := by
  rcases propagateStep_cases now g did with h | ⟨dep, _, h⟩ <;> rw [h] <;> exact ⟨rfl, rfl, rfl⟩

theorem goodKeys_setNodeStatus {g : Graph} (gk : GoodKeys g) {nid : String} {node : Node}
    {st : CompletionStatus} {now : Datetime} (hid : node.id = nid) :
    GoodKeys (setNodeStatus g nid node st now) := by
  refine ⟨dset_nodup _ _ _ gk.nodesNodup, gk.edgesNodup, gk.adjNodup, gk.revNodup, ?_, gk.edgeId⟩
  intro k m hm
  simp only [setNodeStatus, dget_dset] at hm
  by_cases h : nid = k
  · rw [if_pos h] at hm
    injection hm with hm
    subst hm
    exact hid.trans h
  · rw [if_neg h] at hm
    exact gk.nodeId k m hm

theorem propagateStep_goodKeys {now : Datetime} {g : Graph} {did : String}
    (gk : GoodKeys g) : GoodKeys (propagateStep now g did) := by
  rcases propagateStep_cases now g did with h | ⟨dep, hdep, h⟩
  · rw [h]; exact gk
  · rw [h]
    exact goodKeys_setNodeStatus gk (gk.nodeId _ _ hdep)

theorem foldl_propagateStep_frame (now : Datetime) (l : List String) (g : Graph) :
    (l.foldl (propagateStep now) g).edges = g.edges ∧
    (l.foldl (propagateStep now) g).adjacency = g.adjacency ∧
    (l.foldl (propagateStep now) g).reverse_adjacency = g.reverse_adjacency := by
  induction l generalizing g with
  | nil => exact ⟨rfl, rfl, rfl⟩
  | cons hd tl ih =>
      obtain ⟨h1, h2, h3⟩ := ih (propagateStep now g hd)
      obtain ⟨s1, s2, s3⟩ := propagateStep_frame now g hd
      exact ⟨h1.trans s1, h2.trans s2, h3.trans s3⟩

theorem foldl_propagateStep_goodKeys (now : Datetime) (l : List String) {g : Graph}
    (gk : GoodKeys g) : GoodKeys (l.foldl (propagateStep now) g) := by
  induction l generalizing g with
  | nil => exact gk
  | cons hd tl ih => exact ih (propagateStep_goodKeys gk)

theorem update_status_none {g : Graph} {nid : String} {st : CompletionStatus}
    {now : Datetime} (h : dget g.nodes nid = none) : update_status g nid st now = g := by
  unfold update_status
  rw [h]

theorem update_status_some {g : Graph} {nid : String} {node : Node}
    {st : CompletionStatus} {now : Datetime} (h : dget g.nodes nid = some node) :
    update_status g nid st now =
      if st = CompletionStatus.completed then
        propagate_completion (setNodeStatus g nid node st now) nid now
      else setNodeStatus g nid node st now := by
  unfold update_status
  rw [h]
  rfl

theorem update_status_frame (g : Graph) (nid : String) (st : CompletionStatus)
    (now : Datetime) :
    (update_status g nid st now).edges = g.edges ∧
    (update_status g nid st now).adjacency = g.adjacency ∧
    (update_status g nid st now).reverse_adjacency = g.reverse_adjacency := by
  cases hnode : dget g.nodes nid with
  | none => rw [update_status_none hnode]; exact ⟨rfl, rfl, rfl⟩
  | some node =>
      rw [update_status_some hnode]
      by_cases h : st = CompletionStatus.completed
      · rw [if_pos h, propagate_completion]
        exact foldl_propagateStep_frame now _ _
      · rw [if_neg h]
        exact ⟨rfl, rfl, rfl⟩

theorem update_status_goodKeys {g : Graph} {nid : String} {st : CompletionStatus}
    {now : Datetime} (gk : GoodKeys g) : GoodKeys (update_status g nid st now) := by
  cases hnode : dget g.nodes nid with
  | none => rw [update_status_none hnode]; exact gk
  | some node =>
      have gk1 : GoodKeys (setNodeStatus g nid node st now) :=
        goodKeys_setNodeStatus gk (gk.nodeId _ _ hnode)
      rw [update_status_some hnode]
      by_cases h : st = CompletionStatus.completed
      · rw [if_pos h, propagate_completion]
        exact foldl_propagateStep_goodKeys now _ gk1
      · rw [if_neg h]
        exact gk1

theorem update_status_inv {g : Graph} {nid : String} {st : CompletionStatus} {now : Datetime}
    (hi : Inv g) : Inv (update_status g nid st now) := by
  obtain ⟨gk, eo, ix⟩ := hi
  obtain ⟨he, ha, hr⟩ := update_status_frame g nid st now
  exact ⟨update_status_goodKeys gk, edgeIdsOk_of_frame he ha hr eo,
    indexed_of_frame he ha hr ix⟩

theorem dget_repointFold (upd : Edge → Edge) (hupd : ∀ e, upd (upd e) = upd e)
    (es : PyDict Edge) (ids : List String) (k : String) :
    dget (repointFold upd es ids) k =
      (dget es k).map (fun e => if k ∈ ids then upd e else e) := by
  induction ids generalizing es with
  | nil =>
      simp [repointFold]
  | cons i t ih =>
      simp only [repointFold, List.foldl_cons] at ih ⊢
      cases hi : dget es i with
      | none =>
          simp only [hi]
          rw [ih]
          cases hk : dget es k with
          | none => simp
          | some e1 =>
              have hk2 : k ≠ i := by
                intro he
                rw [he, hi] at hk
                exact Option.noConfusion hk
              simp [List.mem_cons, hk2]
      | some e0 =>
          simp only [hi]
          rw [ih]
          by_cases hk2 : i = k
          · subst hk2
            rw [dget_dset_self, hi]
            by_cases hm : i ∈ t <;> simp [hm, hupd]
          · rw [dget_dset_ne _ _ _ _ hk2]
            cases hk : dget es k with
            | none => simp
            | some e1 =>
                have : k ≠ i := fun he => hk2 he.symm
                simp [List.mem_cons, this]

theorem dkeys_repointFold (upd : Edge → Edge) (es : PyDict Edge) (ids : List String) :
    dkeys (repointFold upd es ids) = dkeys es := by
  induction ids generalizing es with
  | nil => rfl
  | cons i t ih =>
      simp only [repointFold, List.foldl_cons] at ih ⊢
      cases hi : dget es i with
      | none => simp only [hi]; exact ih es
      | some e0 =>
          simp only [hi]
          rw [ih, dkeys_dset]
          simp [hi]

theorem add_node_inv {g : Graph} {n : Node} (hi : Inv g) : Inv (add_node g n) := by
  obtain ⟨gk, eo, ix⟩ := hi
  refine ⟨⟨dset_nodup _ _ _ gk.nodesNodup, gk.edgesNodup, ?_, ?_, ?_, gk.edgeId⟩, ⟨?_, ?_⟩, ?_⟩
  · by_cases h : (dget g.adjacency n.id).isSome
    · simpa [add_node, h] using gk.adjNodup
    · simpa [add_node, h] using dset_nodup _ _ _ gk.adjNodup
  · by_cases h : (dget g.reverse_adjacency n.id).isSome
    · simpa [add_node, h] using gk.revNodup
    · simpa [add_node, h] using dset_nodup _ _ _ gk.revNodup
  · intro k m hm
    simp only [add_node, dget_dset] at hm
    by_cases h : n.id = k
    · rw [if_pos h] at hm
      injection hm with hm
      subst hm
      exact h
    · rw [if_neg h] at hm
      exact gk.nodeId k m hm
  · intro nid ids hlook eid hmem
    show (dget g.edges eid).isSome
    by_cases h : (dget g.adjacency n.id).isSome
    · simp only [add_node, h, if_pos] at hlook
      exact eo.adj nid ids hlook eid hmem
    · simp [add_node, h, dget_dset] at hlook
      by_cases h2 : n.id = nid
      · rw [if_pos h2] at hlook
        injection hlook with hlook
        subst hlook
        simp at hmem
      · rw [if_neg h2] at hlook
        exact eo.adj nid ids hlook eid hmem
  · intro nid ids hlook eid hmem
    show (dget g.edges eid).isSome
    by_cases h : (dget g.reverse_adjacency n.id).isSome
    · simp only [add_node, h, if_pos] at hlook
      exact eo.rev nid ids hlook eid hmem
    · simp [add_node, h, dget_dset] at hlook
      by_cases h2 : n.id = nid
      · rw [if_pos h2] at hlook
        injection hlook with hlook
        subst hlook
        simp at hmem
      · rw [if_neg h2] at hlook
        exact eo.rev nid ids hlook eid hmem
  · intro eid e hlook
    obtain ⟨⟨ids1, hids1, hm1⟩, ⟨ids2, hids2, hm2⟩⟩ := ix eid e hlook
    constructor
    · refine ⟨ids1, ?_, hm1⟩
      by_cases h : (dget g.adjacency n.id).isSome
      · simpa [add_node, h] using hids1
      · simp [add_node, h, dget_dset]
        have h2 : n.id ≠ e.source_id := by
          intro he
          rw [← he] at hids1
          rw [hids1] at h
          simp at h
        rw [if_neg h2]
        exact hids1
    · refine ⟨ids2, ?_, hm2⟩
      by_cases h : (dget g.reverse_adjacency n.id).isSome
      · simpa [add_node, h] using hids2
      · simp [add_node, h, dget_dset]
        have h2 : n.id ≠ e.target_id := by
          intro he
          rw [← he] at hids2
          rw [hids2] at h
          simp at h
        rw [if_neg h2]
        exact hids2

theorem add_edge_inv {g : Graph} {e : Edge} (hi : Inv g) : Inv (add_edge g e) := by
  obtain ⟨gk, eo, ix⟩ := hi
  have hedge : ∀ k, dget (add_edge g e).edges k =
      if e.id = k then some e else dget g.edges k := by
    intro k
    simp only [add_edge, dget_dset]
  have hadj : ∀ k, dget (add_edge g e).adjacency k =
      if e.source_id = k then some ((dget g.adjacency e.source_id).getD [] ++ [e.id])
      else dget g.adjacency k := by
    intro k
    simp only [add_edge, dget_dset]
  have hrev : ∀ k, dget (add_edge g e).reverse_adjacency k =
      if e.target_id = k then some ((dget g.reverse_adjacency e.target_id).getD [] ++ [e.id])
      else dget g.reverse_adjacency k := by
    intro k
    simp only [add_edge, dget_dset]
  have hsome : ∀ eid, (dget g.edges eid).isSome → (dget (add_edge g e).edges eid).isSome := by
    intro eid h
    rw [hedge]
    by_cases h2 : e.id = eid <;> simp [h2, h]
  refine ⟨⟨gk.nodesNodup, dset_nodup _ _ _ gk.edgesNodup, dset_nodup _ _ _ gk.adjNodup,
    dset_nodup _ _ _ gk.revNodup, gk.nodeId, ?_⟩, ⟨?_, ?_⟩, ?_⟩
  · intro k m hm
    rw [hedge] at hm
    by_cases h : e.id = k
    · rw [if_pos h] at hm
      injection hm with hm
      subst hm
      exact h
    · rw [if_neg h] at hm
      exact gk.edgeId k m hm
  · intro nid ids hlook eid hmem
    rw [hadj] at hlook
    by_cases h : e.source_id = nid
    · rw [if_pos h] at hlook
      injection hlook with hlook
      subst hlook
      rcases List.mem_append.mp hmem with hm | hm
      · cases hsrc : dget g.adjacency e.source_id with
        | none => simp [hsrc] at hm
        | some ids0 =>
            exact hsome eid (eo.adj _ ids0 hsrc eid (by simpa [hsrc] using hm))
      · simp only [List.mem_singleton] at hm
        subst hm
        rw [hedge, if_pos rfl]
        rfl
    · rw [if_neg h] at hlook
      exact hsome eid (eo.adj nid ids hlook eid hmem)
  · intro nid ids hlook eid hmem
    rw [hrev] at hlook
    by_cases h : e.target_id = nid
    · rw [if_pos h] at hlook
      injection hlook with hlook
      subst hlook
      rcases List.mem_append.mp hmem with hm | hm
      · cases htgt : dget g.reverse_adjacency e.target_id with
        | none => simp [htgt] at hm
        | some ids0 =>
            exact hsome eid (eo.rev _ ids0 htgt eid (by simpa [htgt] using hm))
      · simp only [List.mem_singleton] at hm
        subst hm
        rw [hedge, if_pos rfl]
        rfl
    · rw [if_neg h] at hlook
      exact hsome eid (eo.rev nid ids hlook eid hmem)
  · intro eid e' hlook
    rw [hedge] at hlook
    by_cases h : e.id = eid
    · rw [if_pos h] at hlook
      injection hlook with hlook
      subst hlook
      constructor
      · refine ⟨_, by rw [hadj, if_pos rfl], ?_⟩
        exact List.mem_append.mpr (Or.inr (List.mem_singleton.mpr h.symm))
      · refine ⟨_, by rw [hrev, if_pos rfl], ?_⟩
        exact List.mem_append.mpr (Or.inr (List.mem_singleton.mpr h.symm))
    · rw [if_neg h] at hlook
      obtain ⟨⟨ids1, hids1, hm1⟩, ⟨ids2, hids2, hm2⟩⟩ := ix eid e' hlook
      constructor
      · by_cases h2 : e.source_id = e'.source_id
        · refine ⟨_, by rw [hadj, if_pos h2], ?_⟩
          rw [h2, hids1]
          exact List.mem_append.mpr (Or.inl (by simpa using hm1))
        · exact ⟨ids1, by rw [hadj, if_neg h2]; exact hids1, hm1⟩
      · by_cases h2 : e.target_id = e'.target_id
        · refine ⟨_, by rw [hrev, if_pos h2], ?_⟩
          rw [h2, hids2]
          exact List.mem_append.mpr (Or.inl (by simpa using hm2))
        · exact ⟨ids2, by rw [hrev, if_neg h2]; exact hids2, hm2⟩

/-- The total in-place rewrite applied to the edge stored under `k` by
the two transfer loops of a merge. -/
def mergeEdgeUpd (inIds outIds : List String) (keep : String) (k : String) (e : Edge) : Edge :=
  let e1 := if k ∈ inIds then { e with target_id := keep } else e
  if k ∈ outIds then { e1 with source_id := keep } else e1

theorem mergeEdgeUpd_id (inIds outIds : List String) (keep k : String) (e : Edge) :
    (mergeEdgeUpd inIds outIds keep k e).id = e.id := by
  unfold mergeEdgeUpd
  by_cases hi : k ∈ inIds <;> by_cases ho : k ∈ outIds <;> simp [hi, ho]

theorem mergeEdgeUpd_source (inIds outIds : List String) (keep k : String) (e : Edge) :
    (mergeEdgeUpd inIds outIds keep k e).source_id =
      if k ∈ outIds then keep else e.source_id := by
  unfold mergeEdgeUpd
  by_cases hi : k ∈ inIds <;> by_cases ho : k ∈ outIds <;> simp [hi, ho]

theorem mergeEdgeUpd_target (inIds outIds : List String) (keep k : String) (e : Edge) :
    (mergeEdgeUpd inIds outIds keep k e).target_id =
      if k ∈ inIds then keep else e.target_id := by
  unfold mergeEdgeUpd
  by_cases hi : k ∈ inIds <;> by_cases ho : k ∈ outIds <;> simp [hi, ho]

theorem dget_mergeWith_edges (g : Graph) (a b : String) (n1 n2 : Node) (k : String) :
    dget (mergeWith g a b n1 n2).edges k =
      (dget g.edges k).map
        (mergeEdgeUpd ((dget g.reverse_adjacency b).getD [])
          ((dget g.adjacency b).getD []) a k) := by
  show dget (repointSources (repointTargets g.edges _ a) _ a) k = _
  rw [repointSources, repointTargets,
    dget_repointFold (fun e => { e with source_id := a }) (fun e => rfl),
    dget_repointFold (fun e => { e with target_id := a }) (fun e => rfl), Option.map_map]
  rfl

theorem dkeys_mergeWith_edges (g : Graph) (a b : String) (n1 n2 : Node) :
    dkeys (mergeWith g a b n1 n2).edges = dkeys g.edges := by
  show dkeys (repointSources (repointTargets g.edges _ a) _ a) = _
  rw [repointSources, repointTargets, dkeys_repointFold, dkeys_repointFold]

theorem dget_mergeWith_nodes (g : Graph) (a b : String) (n1 n2 : Node)
    (hnd : (dkeys g.nodes).Nodup) (k : String) :
    dget (mergeWith g a b n1 n2).nodes k =
      if b = k then none
      else if a = k then some (mergedNode n1 n2)
      else dget g.nodes k := by
  show dget (ddel (dset g.nodes a (mergedNode n1 n2)) b) k = _
  rw [dget_ddel _ _ _ (dset_nodup _ _ _ hnd), dget_dset]

theorem dget_mergeWith_adj (g : Graph) (a b : String) (n1 n2 : Node)
    (hnd : (dkeys g.adjacency).Nodup) (k : String) :
    dget (mergeWith g a b n1 n2).adjacency k =
      if b = k then none
      else if a = k then
        some ((dget g.adjacency a).getD [] ++ (dget g.adjacency b).getD [])
      else dget g.adjacency k := by
  show dget (ddel (dset g.adjacency a _) b) k = _
  rw [dget_ddel _ _ _ (dset_nodup _ _ _ hnd), dget_dset]

theorem dget_mergeWith_rev (g : Graph) (a b : String) (n1 n2 : Node)
    (hnd : (dkeys g.reverse_adjacency).Nodup) (k : String) :
    dget (mergeWith g a b n1 n2).reverse_adjacency k =
      if b = k then none
      else if a = k then
        some ((dget g.reverse_adjacency a).getD [] ++ (dget g.reverse_adjacency b).getD [])
      else dget g.reverse_adjacency k := by
  show dget (ddel (dset g.reverse_adjacency a _) b) k = _
  rw [dget_ddel _ _ _ (dset_nodup _ _ _ hnd), dget_dset]

theorem mergeWith_inv {g : Graph} {a b : String} {n1 n2 : Node}
    (hne : a ≠ b) (ha : dget g.nodes a = some n1) (hi : Inv g) :
    Inv (mergeWith g a b n1 n2) := by
  obtain ⟨gk, eo, ix⟩ := hi
  have hESome : ∀ k, (dget (mergeWith g a b n1 n2).edges k).isSome ↔
      (dget g.edges k).isSome := by
    intro k
    rw [dget_mergeWith_edges]
    cases dget g.edges k <;> simp
  have hOutSome : ∀ eid, eid ∈ (dget g.adjacency b).getD [] → (dget g.edges eid).isSome := by
    intro eid hmem
    cases hb2 : dget g.adjacency b with
    | none => simp [hb2] at hmem
    | some ids0 => exact eo.adj b ids0 hb2 eid (by simpa [hb2] using hmem)
  have hInSome : ∀ eid, eid ∈ (dget g.reverse_adjacency b).getD [] →
      (dget g.edges eid).isSome := by
    intro eid hmem
    cases hb2 : dget g.reverse_adjacency b with
    | none => simp [hb2] at hmem
    | some ids0 => exact eo.rev b ids0 hb2 eid (by simpa [hb2] using hmem)
  have hOutA : ∀ eid, eid ∈ (dget g.adjacency a).getD [] → (dget g.edges eid).isSome := by
    intro eid hmem
    cases hb2 : dget g.adjacency a with
    | none => simp [hb2] at hmem
    | some ids0 => exact eo.adj a ids0 hb2 eid (by simpa [hb2] using hmem)
  have hInA : ∀ eid, eid ∈ (dget g.reverse_adjacency a).getD [] →
      (dget g.edges eid).isSome := by
    intro eid hmem
    cases hb2 : dget g.reverse_adjacency a with
    | none => simp [hb2] at hmem
    | some ids0 => exact eo.rev a ids0 hb2 eid (by simpa [hb2] using hmem)
  refine ⟨⟨?_, ?_, ?_, ?_, ?_, ?_⟩, ⟨?_, ?_⟩, ?_⟩
  · exact ddel_nodup _ _ (dset_nodup _ _ _ gk.nodesNodup)
  · rw [dkeys_mergeWith_edges]
    exact gk.edgesNodup
  · exact ddel_nodup _ _ (dset_nodup _ _ _ gk.adjNodup)
  · exact ddel_nodup _ _ (dset_nodup _ _ _ gk.revNodup)
  · intro k m hm
    rw [dget_mergeWith_nodes g a b n1 n2 gk.nodesNodup] at hm
    by_cases h1 : b = k
    · rw [if_pos h1] at hm
      exact Option.noConfusion hm
    · rw [if_neg h1] at hm
      by_cases h2 : a = k
      · rw [if_pos h2] at hm
        injection hm with hm
        subst hm
        show n1.id = k
        rw [gk.nodeId a n1 ha, h2]
      · rw [if_neg h2] at hm
        exact gk.nodeId k m hm
  · intro k m hm
    rw [dget_mergeWith_edges] at hm
    cases he : dget g.edges k with
    | none => rw [he] at hm; exact Option.noConfusion hm
    | some e0 =>
        rw [he] at hm
        injection hm with hm
        subst hm
        rw [mergeEdgeUpd_id]
        exact gk.edgeId k e0 he
  · intro nid ids hlook eid hmem
    rw [hESome]
    rw [dget_mergeWith_adj g a b n1 n2 gk.adjNodup] at hlook
    by_cases h1 : b = nid
    · rw [if_pos h1] at hlook
      exact Option.noConfusion hlook
    · rw [if_neg h1] at hlook
      by_cases h2 : a = nid
      · rw [if_pos h2] at hlook
        injection hlook with hlook
        subst hlook
        rcases List.mem_append.mp hmem with hm | hm
        · exact hOutA eid hm
        · exact hOutSome eid hm
      · rw [if_neg h2] at hlook
        exact eo.adj nid ids hlook eid hmem
  · intro nid ids hlook eid hmem
    rw [hESome]
    rw [dget_mergeWith_rev g a b n1 n2 gk.revNodup] at hlook
    by_cases h1 : b = nid
    · rw [if_pos h1] at hlook
      exact Option.noConfusion hlook
    · rw [if_neg h1] at hlook
      by_cases h2 : a = nid
      · rw [if_pos h2] at hlook
        injection hlook with hlook
        subst hlook
        rcases List.mem_append.mp hmem with hm | hm
        · exact hInA eid hm
        · exact hInSome eid hm
      · rw [if_neg h2] at hlook
        exact eo.rev nid ids hlook eid hmem
  · intro eid e hlook
    rw [dget_mergeWith_edges] at hlook
    cases he : dget g.edges eid with
    | none => rw [he] at hlook; exact Option.noConfusion hlook
    | some e0 =>
        rw [he] at hlook
        injection hlook with hlook
        subst hlook
        obtain ⟨⟨ids1, hids1, hm1⟩, ⟨ids2, hids2, hm2⟩⟩ := ix eid e0 he
        constructor
        · rw [mergeEdgeUpd_source]
          by_cases ho : eid ∈ (dget g.adjacency b).getD []
          · rw [if_pos ho]
            refine ⟨(dget g.adjacency a).getD [] ++ (dget g.adjacency b).getD [], ?_, ?_⟩
            · rw [dget_mergeWith_adj g a b n1 n2 gk.adjNodup, if_neg (Ne.symm hne), if_pos rfl]
            · exact List.mem_append.mpr (Or.inr ho)
          · rw [if_neg ho]
            have hsb : e0.source_id ≠ b := by
              intro hsb
              rw [hsb] at hids1
              exact ho (by simp [hids1, hm1])
            by_cases hsa : e0.source_id = a
            · refine ⟨(dget g.adjacency a).getD [] ++ (dget g.adjacency b).getD [], ?_, ?_⟩
              · rw [hsa, dget_mergeWith_adj g a b n1 n2 gk.adjNodup,
                  if_neg (Ne.symm hne), if_pos rfl]
              · refine List.mem_append.mpr (Or.inl ?_)
                rw [← hsa, hids1]
                simpa using hm1
            · refine ⟨ids1, ?_, hm1⟩
              rw [dget_mergeWith_adj g a b n1 n2 gk.adjNodup,
                if_neg (fun hc => hsb hc.symm), if_neg (fun hc => hsa hc.symm)]
              exact hids1
        · rw [mergeEdgeUpd_target]
          by_cases hti : eid ∈ (dget g.reverse_adjacency b).getD []
          · rw [if_pos hti]
            refine ⟨(dget g.reverse_adjacency a).getD [] ++
              (dget g.reverse_adjacency b).getD [], ?_, ?_⟩
            · rw [dget_mergeWith_rev g a b n1 n2 gk.revNodup, if_neg (Ne.symm hne), if_pos rfl]
            · exact List.mem_append.mpr (Or.inr hti)
          · rw [if_neg hti]
            have htb : e0.target_id ≠ b := by
              intro htb
              rw [htb] at hids2
              exact hti (by simp [hids2, hm2])
            by_cases hta : e0.target_id = a
            · refine ⟨(dget g.reverse_adjacency a).getD [] ++
                (dget g.reverse_adjacency b).getD [], ?_, ?_⟩
              · rw [hta, dget_mergeWith_rev g a b n1 n2 gk.revNodup,
                  if_neg (Ne.symm hne), if_pos rfl]
              · refine List.mem_append.mpr (Or.inl ?_)
                rw [← hta, hids2]
                simpa using hm2
            · refine ⟨ids2, ?_, hm2⟩
              rw [dget_mergeWith_rev g a b n1 n2 gk.revNodup,
                if_neg (fun hc => htb hc.symm), if_neg (fun hc => hta hc.symm)]
              exact hids2

theorem merge_inv {g : Graph} {a b : String} (hne : a ≠ b) (hi : Inv g) :
    Inv (merge_duplicate_nodes g a b) := by
  unfold merge_duplicate_nodes
  cases ha : dget g.nodes a with
  | none => exact hi
  | some n1 =>
      cases hb : dget g.nodes b with
      | none => exact hi
      | some n2 => exact mergeWith_inv hne ha hi

/-- Every graph reachable through the public mutation API satisfies the
key, id-coherence and indexing invariants. -/
theorem built_inv {g : Graph} (h : Built g) : Inv g := by
  induction h with
  | empty => exact emptyGraph_inv
  | add_node _ ih => exact add_node_inv ih
  | add_edge _ ih => exact add_edge_inv ih
  | update_status _ ih => exact update_status_inv ih
  | merge hne _ ih => exact merge_inv hne ih

/-! ### Concrete fixtures for witnesses and counterexamples -/

def epoch : Datetime := ⟨2024, 1, 1, 0, 0, 0, 0⟩

/-- A plain requirement node with the dataclass defaults. -/
def mkNode (id : String) (st : CompletionStatus) : Node :=
  { id := id
    type := NodeType.requirement
    title := id
    description := ""
    status := st
    source_document := none
    source_location := none
    source_text := none
    checkbox_state := none
    condition_met := none
    deadline := none
    created_at := epoch
    updated_at := epoch
    confidence := 1
    tags := []
    metadata := []
    notes := none }

/-- A dependency edge (`depends_on`). -/
def mkDepEdge (id src tgt : String) : Edge :=
  { id := id
    source_id := src
    target_id := tgt
    type := EdgeType.depends_on
    description := none
    confidence := 1
    metadata := [] }

/-! ### Helper lemmas for the claim theorems -/

theorem mapM_eq_some_filterMap {α : Type} (f : String → Option α) (l : List String)
    (h : ∀ x ∈ l, (f x).isSome) : l.mapM f = some (l.filterMap f) := by
  induction l with
  | nil => rfl
  | cons a t ih =>
      have ha := h a (List.mem_cons_self _ _)
      cases hfa : f a with
      | none => rw [hfa] at ha; simp at ha
      | some v =>
          rw [List.mapM_cons, hfa, ih (fun x hx => h x (List.mem_cons_of_mem _ hx))]
          simp [List.filterMap_cons, hfa]

/-! ### Claim C2 -/

/-- C2: `get_actionable_items()` returns exactly the nodes whose status is
`not_started` or `in_progress` and whose every direct dependency (via
`get_dependencies`) has status `completed` or `not_applicable`. -/
theorem C2_actionable_items_spec (g : Graph) (n : Node) :
    n ∈ get_actionable_items g ↔
      n ∈ dvalues g.nodes ∧
      (n.status = CompletionStatus.not_started ∨ n.status = CompletionStatus.in_progress) ∧
      ∀ d ∈ get_dependencies g n.id,
        d.status = CompletionStatus.completed ∨ d.status = CompletionStatus.not_applicable := by
  unfold get_actionable_items
  rw [List.mem_filter]
  simp [List.all_eq_true, and_assoc]

/-! ### Claim C3 -/

/-- C3: on every graph built through the mutation API — dangling edges
included — the traversal APIs never fault (the checked variants that
model the Python edge-store subscription succeed), and every node they
return is present in the graph's node map; edges with a missing endpoint
are silently skipped. -/
theorem C3_traversal_total_and_filtered (g : Graph) (hb : Built g) (node_id : String) :
    get_dependencies_checked g node_id = some (get_dependencies g node_id) ∧
    get_dependents_checked g node_id = some (get_dependents g node_id) ∧
    (∀ n ∈ get_dependencies g node_id, dget g.nodes n.id = some n) ∧
    (∀ n ∈ get_dependents g node_id, dget g.nodes n.id = some n) := by
  obtain ⟨gk, eo, _⟩ := built_inv hb
  have hout : get_outgoing_edges_checked g node_id = some (get_outgoing_edges g node_id) := by
    unfold get_outgoing_edges_checked get_outgoing_edges
    apply mapM_eq_some_filterMap
    intro x hx
    cases hads : dget g.adjacency node_id with
    | none => simp [hads] at hx
    | some ids => exact eo.adj node_id ids hads x (by simpa [hads] using hx)
  have hin : get_incoming_edges_checked g node_id = some (get_incoming_edges g node_id) := by
    unfold get_incoming_edges_checked get_incoming_edges
    apply mapM_eq_some_filterMap
    intro x hx
    cases hads : dget g.reverse_adjacency node_id with
    | none => simp [hads] at hx
    | some ids => exact eo.rev node_id ids hads x (by simpa [hads] using hx)
  refine ⟨?_, ?_, ?_, ?_⟩
  · unfold get_dependencies_checked get_dependencies
    rw [hout]
    rfl
  · unfold get_dependents_checked get_dependents
    rw [hin]
    rfl
  · intro n hn
    unfold get_dependencies at hn
    obtain ⟨e, _, he⟩ := List.mem_filterMap.mp hn
    rw [gk.nodeId _ _ he]
    exact he
  · intro n hn
    unfold get_dependents at hn
    obtain ⟨e, _, he⟩ := List.mem_filterMap.mp hn
    rw [gk.nodeId _ _ he]
    exact he

/-- The fixture for C3: one real node and one dangling dependency edge
(`target_id` not in the node map). -/
def gC3 : Graph := add_edge (add_node emptyGraph (mkNode "A" CompletionStatus.not_started))
  (mkDepEdge "e1" "A" "missing")

theorem C3_witness :
    dget gC3.nodes "missing" = none ∧
    get_dependencies_checked gC3 "A" = some (get_dependencies gC3 "A") ∧
    get_dependencies gC3 "A" = [] ∧
    (∀ n ∈ get_dependencies gC3 "A", dget gC3.nodes n.id = some n) := by
  have h := C3_traversal_total_and_filtered gC3
    (Built.add_edge (Built.add_node Built.empty)) "A"
  exact ⟨by decide, h.1, by decide, h.2.2.1⟩

/-! ### Claim C8 -/

/-- C8: any curated exclusion-risk keyword occurring as a substring of the
lowered concatenation `title + description + source_text` forces
priority CRITICAL, regardless of metadata, node type or graph context. -/
theorem C8_keyword_forces_critical (g : Graph) (node : Node)
    (h : ∃ kw ∈ CRITICAL_KEYWORDS, strContains (textToCheck node) kw = true) :
    determine_priority g node = Priority.critical := by
  obtain ⟨kw, hmem, hc⟩ := h
  have hany : CRITICAL_KEYWORDS.any (fun kw => strContains (textToCheck node) kw) = true :=
    List.any_eq_true.mpr ⟨kw, hmem, hc⟩
  rw [determine_priority, if_pos hany]

/-- A node whose description contains "Ausschlusskriterium" while its
metadata carries `is_required = False`. -/
def nodeC8 : Node :=
  { mkNode "n8" CompletionStatus.not_started with
    description := "Ausschlusskriterium"
    metadata := [("is_required", MetaVal.boolVal false)] }

theorem C8_witness :
    dget nodeC8.metadata "is_required" = some (MetaVal.boolVal false) ∧
    determine_priority emptyGraph nodeC8 = Priority.critical :=
  ⟨rfl, C8_keyword_forces_critical emptyGraph nodeC8 ⟨"ausschluss", by decide, by decide⟩⟩

/-! ### Claim C9 -/

/-- C9 fixture: node `X` with three direct dependents, all `completed`,
matching none of the priority rules (1)–(4). -/
def gC9 : Graph :=
  add_edge (add_edge (add_edge
    (add_node (add_node (add_node (add_node emptyGraph
      (mkNode "X" CompletionStatus.not_started))
      (mkNode "D1" CompletionStatus.completed))
      (mkNode "D2" CompletionStatus.completed))
      (mkNode "D3" CompletionStatus.completed))
    (mkDepEdge "e1" "D1" "X")) (mkDepEdge "e2" "D2" "X")) (mkDepEdge "e3" "D3" "X")

def nodeC9 : Node := mkNode "X" CompletionStatus.not_started

/-- C9 counterexample: the claim says a node with fewer than 3 unfinished
dependents (here zero — all three are completed) gets MEDIUM, but the
code counts all dependents and returns HIGH. -/
theorem C9_counterexample :
    determine_priority gC9 nodeC9 = Priority.high ∧
    ((get_dependents gC9 nodeC9.id).filter
      (fun d => !decide (d.status = CompletionStatus.completed))).length = 0 ∧
    CRITICAL_KEYWORDS.any (fun kw => strContains (textToCheck nodeC9) kw) = false ∧
    dget nodeC9.metadata "is_required" = none ∧
    nodeC9.type = NodeType.requirement := by
  refine ⟨by decide, by decide, by decide, rfl, rfl⟩

/-- C9 (amended): for a node matching none of the priority rules (1)–(4),
`_determine_priority` returns HIGH exactly when the node has 3 or more
direct dependents of any status (the code does not restrict the count
to unfinished dependents); with fewer it returns MEDIUM. -/
theorem C9_dependents_threshold (g : Graph) (node : Node)
    (h1 : CRITICAL_KEYWORDS.any (fun kw => strContains (textToCheck node) kw) = false)
    (h2 : dget node.metadata "is_required" ≠ some (MetaVal.boolVal true))
    (h3 : node.type ≠ NodeType.signature)
    (h4 : node.type ≠ NodeType.deadline)
    (h5 : node.type ≠ NodeType.document) :
    (determine_priority g node = Priority.high ↔ 3 ≤ (get_dependents g node.id).length) ∧
    ((get_dependents g node.id).length < 3 → determine_priority g node = Priority.medium) := by
  rw [determine_priority, if_neg (by simp [h1]), if_neg h2, if_neg h3, if_neg h4, if_neg h5,
    ite_self]
  constructor
  · by_cases hlen : 3 ≤ (get_dependents g node.id).length
    · simp [hlen]
    · simp [hlen]
  · intro hlt
    rw [if_neg (by omega)]

theorem C9_witness :
    3 ≤ (get_dependents gC9 nodeC9.id).length ∧
    determine_priority gC9 nodeC9 = Priority.high := by
  have h := C9_dependents_threshold gC9 nodeC9 (by decide) (by decide)
    (by decide) (by decide) (by decide)
  exact ⟨by decide, h.1.mpr (by decide)⟩

/-! ### Claim C6 -/

/-- C6 fixture for the counterexample: three applicable nodes, one
completed — the exact ratio 100/3 is not representable at one decimal. -/
def gC6 : Graph :=
  add_node (add_node (add_node emptyGraph
    (mkNode "a" CompletionStatus.completed))
    (mkNode "b" CompletionStatus.not_started))
    (mkNode "c" CompletionStatus.not_started)

/-- C6 fixture for the claim's example: 10 nodes, 2 `not_applicable`,
4 `completed`. -/
def gC6ex : Graph :=
  [mkNode "n1" CompletionStatus.completed, mkNode "n2" CompletionStatus.completed,
   mkNode "n3" CompletionStatus.completed, mkNode "n4" CompletionStatus.completed,
   mkNode "n5" CompletionStatus.not_applicable, mkNode "n6" CompletionStatus.not_applicable,
   mkNode "n7" CompletionStatus.not_started, mkNode "n8" CompletionStatus.not_started,
   mkNode "n9" CompletionStatus.in_progress, mkNode "n10" CompletionStatus.blocked
  ].foldl add_node emptyGraph

/-- Evaluation rule for `pyRound1` when the scaled value sits strictly
below the rounding midpoint. -/
theorem pyRound1_eval (q : Rat) (f : Int) (hf : ⌊q * 10⌋ = f)
    (hlt : q * 10 - (f : Rat) < 1 / 2) : pyRound1 q = (f : Rat) / 10 := by
  simp only [pyRound1, hf]
  rw [if_pos hlt]

theorem pyRound1_zero : pyRound1 0 = 0 := by
  have h0 : ((0 : Rat) * 10) = 0 := by norm_num
  have hf : ⌊(0 : Rat) * 10⌋ = 0 := by rw [h0, Int.floor_zero]
  rw [pyRound1_eval 0 0 hf (by norm_num)]
  norm_num

/-- The reported completion percentage, recomputed from the node list. -/
theorem completion_percentage_formula (g : Graph) :
    (get_completion_stats g).completion_percentage =
      if g.nodes.length - statusCount g CompletionStatus.not_applicable = 0 then 0
      else pyRound1 ((statusCount g CompletionStatus.completed : Rat) /
        ((g.nodes.length - statusCount g CompletionStatus.not_applicable : Nat) : Rat)
        * 100) := by
  show pyRound1 _ = _
  by_cases h : g.nodes.length - statusCount g CompletionStatus.not_applicable = 0
  · rw [if_pos h, if_neg (by omega)]
    exact pyRound1_zero
  · rw [if_neg h, if_pos (by omega)]

/-- C6 counterexample: with 3 applicable nodes and 1 completed the code
reports `round(100/3, 1) = 33.3`, not the exact value `100/3` the claim
states. -/
theorem C6_counterexample :
    (get_completion_stats gC6).completed_items = 1 ∧
    (get_completion_stats gC6).applicable_items = 3 ∧
    (get_completion_stats gC6).completion_percentage ≠
      ((get_completion_stats gC6).completed_items : Rat) /
        ((get_completion_stats gC6).applicable_items : Rat) * 100 := by
  have h1 : (get_completion_stats gC6).completed_items = 1 := rfl
  have h2 : (get_completion_stats gC6).applicable_items = 3 := rfl
  have hc : statusCount gC6 CompletionStatus.completed = 1 := rfl
  have hna : gC6.nodes.length - statusCount gC6 CompletionStatus.not_applicable = 3 := rfl
  have hp : (get_completion_stats gC6).completion_percentage = pyRound1 (100 / 3) := by
    rw [completion_percentage_formula, hc, hna, if_neg (by omega)]
    norm_num
  have hf : ⌊((100 : Rat) / 3) * 10⌋ = 333 := by
    rw [Int.floor_eq_iff]
    norm_num
  have hr : pyRound1 (100 / 3) = (333 : Rat) / 10 :=
    pyRound1_eval _ _ hf (by push_cast; norm_num)
  refine ⟨h1, h2, ?_⟩
  rw [hp, hr, h1, h2]
  norm_num

/-- C6 (amended): `get_completion_stats` reports
`round(completed / (total − not_applicable) * 100, 1)` — the claim's
formula rounded to one decimal — and 0 when the denominator is 0; on the
claim's example (10 nodes, 2 not_applicable, 4 completed) it is exactly
50. -/
theorem C6_stats_percentage :
    (∀ g : Graph,
      (get_completion_stats g).completion_percentage =
        if g.nodes.length - statusCount g CompletionStatus.not_applicable = 0 then 0
        else pyRound1 ((statusCount g CompletionStatus.completed : Rat) /
          ((g.nodes.length - statusCount g CompletionStatus.not_applicable : Nat) : Rat)
          * 100)) ∧
    (get_completion_stats gC6ex).completion_percentage = 50 := by
  refine ⟨completion_percentage_formula, ?_⟩
  have hc : statusCount gC6ex CompletionStatus.completed = 4 := rfl
  have hna : gC6ex.nodes.length - statusCount gC6ex CompletionStatus.not_applicable = 8 := rfl
  rw [completion_percentage_formula, hc, hna, if_neg (by omega)]
  have hval : ((4 : Nat) : Rat) / ((8 : Nat) : Rat) * 100 = 50 := by norm_num
  rw [hval]
  have hf : ⌊(50 : Rat) * 10⌋ = 500 := by
    rw [Int.floor_eq_iff]
    norm_num
  rw [pyRound1_eval _ _ hf (by push_cast; norm_num)]
  norm_num

/-! ### Claim C4 -/

def nodeA4 : Node :=
  { mkNode "A" CompletionStatus.not_started with
    tags := ["t1", "shared"]
    metadata := [("k", MetaVal.boolVal true), ("only_a", MetaVal.strVal "a")] }

def nodeB4 : Node :=
  { mkNode "B" CompletionStatus.not_started with
    tags := ["t2", "shared"]
    metadata := [("k", MetaVal.boolVal false)] }

def gC4 : Graph := add_node (add_node emptyGraph nodeA4) nodeB4

/-- C4 counterexample: on a key conflict the dropped node's metadata value
wins (`node1.metadata.update(node2.metadata)` overwrites the keeper's
entries), refuting "A's values win". -/
theorem C4_counterexample :
    dget nodeA4.metadata "k" = some (MetaVal.boolVal true) ∧
    dget nodeB4.metadata "k" = some (MetaVal.boolVal false) ∧
    dget (merge_duplicate_nodes gC4 "A" "B").nodes "A" = some (mergedNode nodeA4 nodeB4) ∧
    dget (mergedNode nodeA4 nodeB4).metadata "k" = some (MetaVal.boolVal false) := by
  refine ⟨rfl, rfl, by decide, by decide⟩

/-- C4 (amended): after `merge_duplicate_nodes(A, B)` on a graph built via
the public mutation APIs with distinct present ids, no edge references
B, the kept node's tag set is the union of both original tag sets, the
node count drops by exactly one — and in the shallow metadata merge the
dropped node's (B's) values win on key conflict. -/
theorem C4_merge_spec (g : Graph) (hb : Built g) (a b : String) (na nb : Node)
    (hne : a ≠ b) (ha : dget g.nodes a = some na) (hbn : dget g.nodes b = some nb)
    (hmnd : (dkeys nb.metadata).Nodup) :
    (∀ k e, dget (merge_duplicate_nodes g a b).edges k = some e →
      e.source_id ≠ b ∧ e.target_id ≠ b) ∧
    (dget (merge_duplicate_nodes g a b).nodes a = some (mergedNode na nb) ∧
      (∀ t, t ∈ (mergedNode na nb).tags ↔ t ∈ na.tags ∨ t ∈ nb.tags) ∧
      (∀ k, dget (mergedNode na nb).metadata k =
        if (dget nb.metadata k).isSome then dget nb.metadata k else dget na.metadata k)) ∧
    (merge_duplicate_nodes g a b).nodes.length + 1 = g.nodes.length := by
  obtain ⟨gk, eo, ix⟩ := built_inv hb
  have hmw : merge_duplicate_nodes g a b = mergeWith g a b na nb := by
    unfold merge_duplicate_nodes
    rw [ha, hbn]
  rw [hmw]
  refine ⟨?_, ⟨?_, ?_, ?_⟩, ?_⟩
  · intro k e hk
    rw [dget_mergeWith_edges] at hk
    cases he : dget g.edges k with
    | none => rw [he] at hk; exact Option.noConfusion hk
    | some e0 =>
        rw [he] at hk
        injection hk with hk
        subst hk
        constructor
        · rw [mergeEdgeUpd_source]
          by_cases ho : k ∈ (dget g.adjacency b).getD []
          · rw [if_pos ho]; exact hne
          · rw [if_neg ho]
            intro heq
            obtain ⟨⟨ids1, hids1, hm1⟩, _⟩ := ix k e0 he
            rw [heq] at hids1
            exact ho (by simp [hids1, hm1])
        · rw [mergeEdgeUpd_target]
          by_cases hti : k ∈ (dget g.reverse_adjacency b).getD []
          · rw [if_pos hti]; exact hne
          · rw [if_neg hti]
            intro heq
            obtain ⟨_, ⟨ids2, hids2, hm2⟩⟩ := ix k e0 he
            rw [heq] at hids2
            exact hti (by simp [hids2, hm2])
  · rw [dget_mergeWith_nodes g a b na nb gk.nodesNodup, if_neg (Ne.symm hne), if_pos rfl]
  · intro t
    simp [mergedNode, List.mem_dedup, List.mem_append]
  · intro k
    show dget (dupdate na.metadata nb.metadata) k = _
    exact dget_dupdate na.metadata nb.metadata k hmnd
  · show (ddel (dset g.nodes a (mergedNode na nb)) b).length + 1 = g.nodes.length
    have hbs : (dget (dset g.nodes a (mergedNode na nb)) b).isSome := by
      rw [dget_dset_ne _ _ _ _ hne, hbn]
      rfl
    have hlen : 1 ≤ g.nodes.length := by
      have := dget_mem hbn
      exact List.length_pos.mpr (List.ne_nil_of_mem this)
    rw [dlength_ddel, if_pos hbs, dlength_dset, if_pos (by rw [ha]; rfl)]
    omega

theorem C4_witness :
    (merge_duplicate_nodes gC4 "A" "B").nodes.length + 1 = gC4.nodes.length ∧
    (∀ t, t ∈ (mergedNode nodeA4 nodeB4).tags ↔ t ∈ nodeA4.tags ∨ t ∈ nodeB4.tags) := by
  have h := C4_merge_spec gC4 (Built.add_node (Built.add_node Built.empty)) "A" "B"
    nodeA4 nodeB4 (by decide) (by decide) (by decide) (by decide)
  exact ⟨h.2.2, h.2.1.2.1⟩

/-! ### Claim C5 -/

theorem nodeType_round (t : NodeType) : nodeTypeOfString t.value = some t := by
  cases t <;> rfl

theorem edgeType_round (t : EdgeType) : edgeTypeOfString t.value = some t := by
  cases t <;> rfl

theorem status_round (s : CompletionStatus) : completionStatusOfString s.value = some s := by
  cases s <;> rfl

theorem isoformat_ne_empty (d : Datetime) : Datetime.isoformat d ≠ "" := by
  intro h
  have hdata : d.isoChars = [] := congrArg String.data h
  have hlen := congrArg List.length hdata
  simp only [Datetime.isoChars, List.length_append, List.length_cons,
    List.length_nil] at hlen
  omega

theorem node_from_to_dict (n : Node) : Node.from_dict (Node.to_dict n) = some n := by
  obtain ⟨nid, nty, ntitle, ndesc, nst, nsd, nsl, nstx, ncb, ncm, ndl, nca, nua,
    nconf, ntags, nmeta, nnotes⟩ := n
  cases ndl with
  | none =>
      simp [Node.from_dict, Node.to_dict, nodeType_round, status_round,
        fromisoformat_isoformat]
  | some dt =>
      simp [Node.from_dict, Node.to_dict, nodeType_round, status_round,
        fromisoformat_isoformat, isoformat_ne_empty dt]

theorem edge_from_to_dict (e : Edge) : Edge.from_dict (Edge.to_dict e) = some e := by
  obtain ⟨eid, esrc, etgt, ety, edesc, econf, emeta⟩ := e
  simp [Edge.from_dict, Edge.to_dict, edgeType_round]

theorem mapM_map_round {α β : Type} (f : α → β) (p : β → Option α)
    (h : ∀ a, p (f a) = some a) (l : List α) : (l.map f).mapM p = some l := by
  induction l with
  | nil => rfl
  | cons a t ih =>
      rw [List.map_cons, List.mapM_cons, h, ih]
      rfl

theorem foldl_add_node_edges (l : List Node) (g0 : Graph) :
    (l.foldl add_node g0).edges = g0.edges := by
  induction l generalizing g0 with
  | nil => rfl
  | cons n t ih => exact (ih (add_node g0 n)).trans rfl

theorem foldl_add_node_nodes (l : List Node) (g0 : Graph) :
    (l.foldl add_node g0).nodes = l.foldl (fun d n => dset d n.id n) g0.nodes := by
  induction l generalizing g0 with
  | nil => rfl
  | cons n t ih =>
      simp only [List.foldl_cons]
      exact ih (add_node g0 n)

theorem foldl_add_edge_nodes (l : List Edge) (g0 : Graph) :
    (l.foldl add_edge g0).nodes = g0.nodes := by
  induction l generalizing g0 with
  | nil => rfl
  | cons e t ih => exact (ih (add_edge g0 e)).trans rfl

theorem foldl_add_edge_edges (l : List Edge) (g0 : Graph) :
    (l.foldl add_edge g0).edges = l.foldl (fun d e => dset d e.id e) g0.edges := by
  induction l generalizing g0 with
  | nil => rfl
  | cons e t ih =>
      simp only [List.foldl_cons]
      exact ih (add_edge g0 e)

theorem foldl_dset_cons {α : Type} (keyof : α → String) (vs : List α) (k : String) (v : α)
    (init : PyDict α) (h : ∀ x ∈ vs, keyof x ≠ k) :
    vs.foldl (fun acc x => dset acc (keyof x) x) ((k, v) :: init) =
      (k, v) :: vs.foldl (fun acc x => dset acc (keyof x) x) init := by
  induction vs generalizing init with
  | nil => rfl
  | cons x xs ih =>
      simp only [List.foldl_cons]
      have hx : k ≠ keyof x := fun he => h x (List.mem_cons_self _ _) he.symm
      rw [show dset ((k, v) :: init) (keyof x) x = (k, v) :: dset init (keyof x) x from by
        simp [dset, hx]]
      exact ih _ (fun y hy => h y (List.mem_cons_of_mem _ hy))

/-- Re-inserting the values of a well-keyed dictionary in order rebuilds
the same dictionary. -/
theorem rebuild_assoc {α : Type} (keyof : α → String) (d : PyDict α)
    (hnd : (dkeys d).Nodup) (hco : ∀ p ∈ d, keyof p.2 = p.1) :
    (dvalues d).foldl (fun acc x => dset acc (keyof x) x) [] = d := by
  induction d with
  | nil => rfl
  | cons hd tl ih =>
      obtain ⟨k, v⟩ := hd
      simp only [dkeys, List.map_cons, List.nodup_cons] at hnd
      have hk : keyof v = k := hco (k, v) (List.mem_cons_self _ _)
      simp only [dvalues, List.map_cons, List.foldl_cons]
      rw [show dset [] (keyof v) v = [(k, v)] from by rw [dset, hk]]
      rw [foldl_dset_cons keyof (List.map Prod.snd tl) k v [] ?hfresh]
      · rw [show List.foldl (fun acc x => dset acc (keyof x) x) [] (List.map Prod.snd tl) =
          List.foldl (fun acc x => dset acc (keyof x) x) [] (dvalues tl) from rfl]
        rw [ih hnd.2 (fun p hp => hco p (List.mem_cons_of_mem _ hp))]
      case hfresh =>
        intro x hx
        obtain ⟨p, hp, hpx⟩ := List.mem_map.mp hx
        rw [← hpx, hco p (List.mem_cons_of_mem _ hp)]
        intro he
        exact hnd.1 (he ▸ List.mem_map_of_mem Prod.fst hp)

/-- C5: `from_dict(to_dict(G))` succeeds on every graph built via the
public mutation APIs and yields a graph whose node and edge stores are
field-for-field identical to G's (enums travel as their string tokens
and timestamps through their ISO textual form, both proved to
round-trip). -/
theorem C5_round_trip (g : Graph) (hb : Built g) :
    ∃ g', Graph.from_dict (Graph.to_dict g) = some g' ∧
      g'.nodes = g.nodes ∧ g'.edges = g.edges := by
  obtain ⟨gk, _, _⟩ := built_inv hb
  have hn : ((dvalues g.nodes).map Node.to_dict).mapM Node.from_dict =
      some (dvalues g.nodes) := mapM_map_round _ _ node_from_to_dict _
  have he : ((dvalues g.edges).map Edge.to_dict).mapM Edge.from_dict =
      some (dvalues g.edges) := mapM_map_round _ _ edge_from_to_dict _
  refine ⟨(dvalues g.edges).foldl add_edge ((dvalues g.nodes).foldl add_node emptyGraph),
    ?_, ?_, ?_⟩
  · unfold Graph.from_dict Graph.to_dict
    rw [hn, he]
    rfl
  · rw [foldl_add_edge_nodes, foldl_add_node_nodes]
    exact rebuild_assoc Node.id g.nodes gk.nodesNodup
      (fun p hp => gk.nodeId p.1 p.2 (mem_dget gk.nodesNodup hp))
  · rw [foldl_add_edge_edges, foldl_add_node_edges]
    exact rebuild_assoc Edge.id g.edges gk.edgesNodup
      (fun p hp => gk.edgeId p.1 p.2 (mem_dget gk.edgesNodup hp))

/-- C5 fixture: a node exercising deadline, tags, metadata and notes,
plus one edge. -/
def nodeC5 : Node :=
  { mkNode "n5" CompletionStatus.in_progress with
    deadline := some ⟨2025, 6, 30, 12, 0, 0, 500⟩
    source_document := some "doc.pdf"
    tags := ["alpha", "beta"]
    metadata := [("is_required", MetaVal.boolVal true)]
    notes := some "check" }

def gC5 : Graph := add_edge (add_node emptyGraph nodeC5) (mkDepEdge "e5" "n5" "n5")

theorem C5_witness :
    ∃ g', Graph.from_dict (Graph.to_dict gC5) = some g' ∧
      g'.nodes = gC5.nodes ∧ g'.edges = gC5.edges :=
  C5_round_trip gC5 (Built.add_edge (Built.add_node Built.empty))

/-! ### Claim C7 -/

/-- C7: on a readable non-empty document, two transient-marker failures
followed by a valid response make `extract` succeed with no error after
exactly 3 LLM calls; a non-transient exception on the first call ends
extraction immediately (1 call) and surfaces as the result's error. -/
theorem C7_extract_retry (oracle oracleB : Nat → LLMOutcome) (document : DocumentContent)
    (g : Graph) (now : Datetime) (ctr : Nat) (m1 m2 mB : String) (payload : Extraction)
    (hde : document.error = none) (hdt : ¬ pyStrip document.text = "")
    (h0 : oracle 0 = LLMOutcome.apiError m1) (h0r : isRetryableError m1 = true)
    (h1 : oracle 1 = LLMOutcome.apiError m2) (h1r : isRetryableError m2 = true)
    (h2 : oracle 2 = LLMOutcome.success payload)
    (hB : oracleB 0 = LLMOutcome.apiError mB) (hBr : isRetryableError mB = false) :
    ((extract oracle document g now ctr).llmCalls = 3 ∧
      (extract oracle document g now ctr).result.error = none) ∧
    (extract oracleB document g now ctr).llmCalls = 1 ∧
    (extract oracleB document g now ctr).result.error = some ("LLM API error: " ++ mB) := by
  have hcond : (optStrTruthy document.error || !document.is_successful) = false := by
    simp [optStrTruthy, hde, DocumentContent.is_successful, hdt]
  have hloop : extractLoop oracle maxRetries 0 = LoopOut.parsed payload 3 := by
    simp [extractLoop, maxRetries, h0, h1, h2, h0r, h1r]
  have hloopB : extractLoop oracleB maxRetries 0 =
      LoopOut.failed ("LLM API error: " ++ mB) 1 := by
    simp [extractLoop, maxRetries, hB, hBr]
  refine ⟨⟨?_, ?_⟩, ?_, ?_⟩ <;> simp [extract, hcond, hloop, hloopB]

def extC7 : Extraction := { document_summary := "", document_type := "other", items := [] }

def docC7 : DocumentContent :=
  { path := "/tenders/a.pdf", filename := "a.pdf", text := "Inhalt", error := none }

def oracleC7 : Nat → LLMOutcome := fun n =>
  if n = 0 then LLMOutcome.apiError "Rate limit exceeded"
  else if n = 1 then LLMOutcome.apiError "Connection reset by peer"
  else LLMOutcome.success extC7

def oracleC7B : Nat → LLMOutcome := fun _ => LLMOutcome.apiError "invalid api key"

theorem C7_witness :
    (extract oracleC7 docC7 emptyGraph epoch 0).llmCalls = 3 ∧
    (extract oracleC7 docC7 emptyGraph epoch 0).result.error = none ∧
    (extract oracleC7B docC7 emptyGraph epoch 0).llmCalls = 1 ∧
    (extract oracleC7B docC7 emptyGraph epoch 0).result.error =
      some ("LLM API error: " ++ "invalid api key") := by
  have h := C7_extract_retry oracleC7 oracleC7B docC7 emptyGraph epoch 0
    "Rate limit exceeded" "Connection reset by peer" "invalid api key" extC7
    rfl (by decide) rfl (by decide) rfl (by decide) rfl rfl (by decide)
  exact ⟨h.1.1, h.1.2, h.2.1, h.2.2⟩

/-! ### Claim C10 -/

theorem add_edge_edges_le (g : Graph) (e : Edge) :
    g.edges.length ≤ (add_edge g e).edges.length :=
  dlength_le_dset g.edges e.id e

theorem processItemNode_edges (dp dt : String) (now : Datetime)
    (st : Graph × Nat × List String × PyDict String) (item : ExtractedItem) :
    ((processItemNode dp dt now st item).1).edges = st.1.edges := by
  obtain ⟨g, ctr, created, tm⟩ := st
  rfl

theorem foldl_processItemNode_edges (dp dt : String) (now : Datetime)
    (items : List ExtractedItem) (st : Graph × Nat × List String × PyDict String) :
    ((items.foldl (processItemNode dp dt now) st).1).edges = st.1.edges := by
  induction items generalizing st with
  | nil => rfl
  | cons i t ih =>
      simp only [List.foldl_cons]
      rw [ih (processItemNode dp dt now st i), processItemNode_edges]

theorem processItemEdges_edges_le (tm : PyDict String)
    (st : Graph × Nat × List String) (item : ExtractedItem) :
    st.1.edges.length ≤ ((processItemEdges tm st item).1).edges.length := by
  obtain ⟨g, ctr, created⟩ := st
  show g.edges.length ≤ _
  unfold processItemEdges
  cases dget tm (pyLower item.title) with
  | none => exact le_rfl
  | some source_id =>
      dsimp only
      repeat' split
      all_goals first
        | exact le_rfl
        | exact add_edge_edges_le _ _
        | exact le_trans (add_edge_edges_le _ _) (add_edge_edges_le _ _)

theorem foldl_processItemEdges_le (tm : PyDict String)
    (items : List ExtractedItem) (st : Graph × Nat × List String) :
    st.1.edges.length ≤ ((items.foldl (processItemEdges tm) st).1).edges.length := by
  induction items generalizing st with
  | nil => exact le_rfl
  | cons i t ih =>
      simp only [List.foldl_cons]
      exact le_trans (processItemEdges_edges_le tm st i) (ih (processItemEdges tm st i))

theorem processExtraction_edges_le (dp : String) (ext : Extraction) (g : Graph)
    (now : Datetime) (ctr : Nat) :
    g.edges.length ≤ ((processExtraction dp ext g now ctr).1).edges.length := by
  unfold processExtraction
  dsimp only
  have h1 : ((ext.items.foldl (processItemNode dp ext.document_type now)
      (g, ctr, [], [])).1).edges = g.edges :=
    foldl_processItemNode_edges dp ext.document_type now ext.items (g, ctr, [], [])
  have h2 := foldl_processItemEdges_le
    ((ext.items.foldl (processItemNode dp ext.document_type now) (g, ctr, [], [])).2.2.2)
    ext.items
    (((ext.items.foldl (processItemNode dp ext.document_type now) (g, ctr, [], [])).1),
     ((ext.items.foldl (processItemNode dp ext.document_type now) (g, ctr, [], [])).2.1), [])
  rw [show (((ext.items.foldl (processItemNode dp ext.document_type now) (g, ctr, [], [])).1),
     ((ext.items.foldl (processItemNode dp ext.document_type now) (g, ctr, [], [])).2.1),
     ([] : List String)).1 = ((ext.items.foldl (processItemNode dp ext.document_type now)
      (g, ctr, [], [])).1) from rfl] at h2
  rw [h1] at h2
  exact h2

theorem extract_edges_le (oracle : Nat → LLMOutcome) (document : DocumentContent)
    (g : Graph) (now : Datetime) (ctr : Nat) :
    g.edges.length ≤ ((extract oracle document g now ctr).graph).edges.length := by
  unfold extract
  split
  · exact le_rfl
  · split
    · exact le_rfl
    · exact processExtraction_edges_le document.path _ g now ctr

theorem dget_foldl_ddel (L : List Node) (d : PyDict Node)
    (hnd : (dkeys d).Nodup) (k : String) :
    dget (L.foldl (fun ns n => ddel ns n.id) d) k =
      if k ∈ L.map Node.id then none else dget d k := by
  induction L generalizing d with
  | nil => simp
  | cons n t ih =>
      simp only [List.foldl_cons, List.map_cons]
      rw [ih (ddel d n.id) (ddel_nodup _ _ hnd)]
      by_cases h1 : k ∈ t.map Node.id
      · simp [h1, List.mem_cons]
      · rw [if_neg h1, dget_ddel _ _ _ hnd]
        by_cases h2 : n.id = k
        · simp [h2, List.mem_cons]
        · have hnotin : ¬(k = n.id ∨ k ∈ t.map Node.id) := by
            push_neg
            exact ⟨fun he => h2 he.symm, h1⟩
          rw [if_neg h2, if_neg (by simpa [List.mem_cons] using hnotin)]

/-- C10: reprocessing a changed document removes exactly the nodes whose
`source_document` matches from the node map, while the edge map and both
adjacency indices are left untouched (the deleted nodes' entries remain);
extraction afterwards only adds edges, so the edge count never decreases
across reprocessing. -/
theorem C10_reprocess_frame (g : Graph) (hb : Built g) (oracle : Nat → LLMOutcome)
    (document : DocumentContent) (now : Datetime) (ctr : Nat) :
    (∀ n ∈ dvalues g.nodes, n.source_document = some document.path →
      dget (removeDocNodes g document.path).nodes n.id = none) ∧
    (∀ k nd, dget (removeDocNodes g document.path).nodes k = some nd →
      dget g.nodes k = some nd ∧ nd.source_document ≠ some document.path) ∧
    (removeDocNodes g document.path).edges = g.edges ∧
    (removeDocNodes g document.path).adjacency = g.adjacency ∧
    (removeDocNodes g document.path).reverse_adjacency = g.reverse_adjacency ∧
    g.edges.length ≤ ((processChangedDoc oracle document g now ctr).graph).edges.length := by
  obtain ⟨gk, _, _⟩ := built_inv hb
  have hrm : ∀ k, dget (removeDocNodes g document.path).nodes k =
      if k ∈ (get_nodes_by_document g document.path).map Node.id then none
      else dget g.nodes k := by
    intro k
    exact dget_foldl_ddel _ _ gk.nodesNodup k
  refine ⟨?_, ?_, rfl, rfl, rfl, ?_⟩
  · intro n hn hp
    rw [hrm]
    rw [if_pos ?_]
    refine List.mem_map_of_mem Node.id ?_
    unfold get_nodes_by_document
    exact List.mem_filter.mpr ⟨hn, by simp [hp]⟩
  · intro k nd h
    rw [hrm] at h
    by_cases hm : k ∈ (get_nodes_by_document g document.path).map Node.id
    · rw [if_pos hm] at h
      exact Option.noConfusion h
    · rw [if_neg hm] at h
      refine ⟨h, ?_⟩
      intro hp
      refine hm ?_
      have hk : nd.id = k := gk.nodeId k nd h
      have hmem : nd ∈ get_nodes_by_document g document.path := by
        unfold get_nodes_by_document
        refine List.mem_filter.mpr ⟨?_, by simp [hp]⟩
        exact List.mem_map_of_mem Prod.snd (dget_mem h)
      exact hk ▸ List.mem_map_of_mem Node.id hmem
  · show g.edges.length ≤ _
    unfold processChangedDoc
    have he : (removeDocNodes g document.path).edges = g.edges := rfl
    have := extract_edges_le oracle document (removeDocNodes g document.path) now ctr
    rw [he] at this
    exact this

/-- C10 fixture: two nodes, one carrying the changed document's
provenance, plus an edge between them. -/
def nodeC10a : Node :=
  { mkNode "n1" CompletionStatus.not_started with source_document := some "d.pdf" }

def nodeC10b : Node := mkNode "n2" CompletionStatus.not_started

def gC10 : Graph :=
  add_edge (add_node (add_node emptyGraph nodeC10a) nodeC10b) (mkDepEdge "e1" "n2" "n1")

def docC10 : DocumentContent :=
  { path := "d.pdf", filename := "d.pdf", text := "neu", error := none }

def extC10 : Extraction := { document_summary := "", document_type := "form", items := [] }

def oracleC10 : Nat → LLMOutcome := fun _ => LLMOutcome.success extC10

theorem C10_witness :
    dget (removeDocNodes gC10 "d.pdf").nodes "n1" = none ∧
    (removeDocNodes gC10 "d.pdf").edges = gC10.edges ∧
    (removeDocNodes gC10 "d.pdf").adjacency = gC10.adjacency ∧
    gC10.edges.length ≤ ((processChangedDoc oracleC10 docC10 gC10 epoch 0).graph).edges.length := by
  have h := C10_reprocess_frame gC10
    (Built.add_edge (Built.add_node (Built.add_node Built.empty))) oracleC10 docC10 epoch 0
  exact ⟨h.1 nodeC10a (by decide) (by decide), h.2.2.1, h.2.2.2.1, h.2.2.2.2.2⟩

/-! ### Claim C1 -/

/-- The status of a node, `none` when absent. -/
def statusOf (g : Graph) (node_id : String) : Option CompletionStatus :=
  (dget g.nodes node_id).map Node.status

/-- The in-place rewrite completion propagation applies to an unblocked
dependent. -/
def ndUpd (now : Datetime) (nd : Node) : Node :=
  { nd with status := CompletionStatus.not_started, updated_at := now }

/-- The node is currently `blocked` and all of its direct dependencies are
`completed`. -/
def readyB (g1 : Graph) (m : String) : Bool :=
  ((dget g1.nodes m).map (fun dep => decide (dep.status = CompletionStatus.blocked))).getD
    false &&
  (get_dependencies g1 m).all (fun d => decide (d.status = CompletionStatus.completed))

/-- `m` is a direct dependent of `nid` that is currently `blocked` with
all direct dependencies `completed` — the exact condition under which
completion propagation moves `m` to `not_started`. -/
def unlocksB (g1 : Graph) (nid m : String) : Bool :=
  decide (m ∈ (get_dependents g1 nid).map (fun n => n.id)) && readyB g1 m

theorem filterMap_all_congr {α β : Type} (l : List α) (f h : α → Option β) (p : β → Bool)
    (hfh : ∀ a, (f a).map p = (h a).map p) :
    (l.filterMap f).all p = (l.filterMap h).all p := by
  induction l with
  | nil => rfl
  | cons a t ih =>
      have hx := hfh a
      cases hf : f a with
      | none =>
          rw [hf] at hx
          cases hh : h a with
          | none => simp [List.filterMap_cons, hf, hh, ih]
          | some b => rw [hh] at hx; exact absurd hx (by simp)
      | some b =>
          rw [hf] at hx
          cases hh : h a with
          | none => rw [hh] at hx; exact absurd hx (by simp)
          | some c =>
              rw [hh] at hx
              have hpq : p b = p c := by simpa using hx
              simp [List.filterMap_cons, hf, hh, List.all_cons, hpq, ih]

/-- During the propagation fold the set of `completed` nodes never
changes, so the all-dependencies-completed test agrees between the
current state and the snapshot `g1`. -/
theorem deps_all_eq_of_char (now : Datetime) (g1 gc : Graph) (processed : List String)
    (he : gc.edges = g1.edges) (ha : gc.adjacency = g1.adjacency)
    (hn : ∀ m, dget gc.nodes m = (dget g1.nodes m).map
      (fun nd => if m ∈ processed ∧ readyB g1 m = true then ndUpd now nd else nd))
    (x : String) :
    (get_dependencies gc x).all (fun d => decide (d.status = CompletionStatus.completed)) =
      (get_dependencies g1 x).all
        (fun d => decide (d.status = CompletionStatus.completed)) := by
  simp only [get_dependencies, get_outgoing_edges, get_node]
  rw [ha, he]
  apply filterMap_all_congr
  intro e
  rw [hn e.target_id]
  cases hx : dget g1.nodes e.target_id with
  | none => simp
  | some nd =>
      by_cases hc : e.target_id ∈ processed ∧ readyB g1 e.target_id = true
      · have hb : nd.status = CompletionStatus.blocked := by
          have hr := hc.2
          unfold readyB at hr
          rw [hx] at hr
          simp only [Option.map_some', Option.getD_some, Bool.and_eq_true,
            decide_eq_true_eq] at hr
          exact hr.1
        simp [hc, ndUpd, hb]
      · simp [hc]

/-- Characterization of the propagation fold: starting from a state that
differs from the snapshot `g1` exactly by the already-processed ready
dependents having been moved to `not_started`, folding over `L` extends
the processed set by `L`. -/
theorem foldl_propagateStep_nodes (now : Datetime) (g1 : Graph) (L : List String) :
    ∀ (processed : List String) (gc : Graph),
      gc.edges = g1.edges → gc.adjacency = g1.adjacency →
      gc.reverse_adjacency = g1.reverse_adjacency →
      (∀ m, dget gc.nodes m = (dget g1.nodes m).map
        (fun nd => if m ∈ processed ∧ readyB g1 m = true then ndUpd now nd else nd)) →
      ∀ m, dget ((L.foldl (propagateStep now) gc)).nodes m =
        (dget g1.nodes m).map
          (fun nd => if m ∈ processed ++ L ∧ readyB g1 m = true then ndUpd now nd else nd) := by
  induction L with
  | nil =>
      intro processed gc he ha hr hn m
      rw [List.foldl_nil, hn m, List.append_nil]
  | cons i t ih =>
      intro processed gc he ha hr hn m
      rw [List.foldl_cons]
      have hdeps := deps_all_eq_of_char now g1 gc processed he ha hn
      -- establish the step and its node characterization
      have hmain : ∀ m', dget ((propagateStep now gc i)).nodes m' =
          (dget g1.nodes m').map
            (fun nd => if m' ∈ processed ++ [i] ∧ readyB g1 m' = true then ndUpd now nd
              else nd) := by
        intro m'
        have hgci := hn i
        cases hg1i : dget g1.nodes i with
        | none =>
            have hnone : dget gc.nodes i = none := by rw [hgci, hg1i]; rfl
            have hstep : propagateStep now gc i = gc := by
              unfold propagateStep
              rw [hnone]
            rw [hstep, hn m']
            cases hg1m : dget g1.nodes m' with
            | none => rfl
            | some nd =>
                by_cases hmi : m' = i
                · rw [hmi, hg1i] at hg1m
                  exact Option.noConfusion hg1m
                · simp [List.mem_append, List.mem_singleton, hmi]
        | some nd =>
            by_cases hready : readyB g1 i = true
            · have hb : nd.status = CompletionStatus.blocked := by
                have hr2 := hready
                unfold readyB at hr2
                rw [hg1i] at hr2
                simp only [Option.map_some', Option.getD_some, Bool.and_eq_true,
                  decide_eq_true_eq] at hr2
                exact hr2.1
              have hallg1 : (get_dependencies g1 i).all
                  (fun d => decide (d.status = CompletionStatus.completed)) = true := by
                have hr2 := hready
                unfold readyB at hr2
                simp only [Bool.and_eq_true] at hr2
                exact hr2.2
              by_cases hproc : i ∈ processed
              · have hgc : dget gc.nodes i = some (ndUpd now nd) := by
                  rw [hgci, hg1i]
                  simp [hproc, hready]
                have hstep : propagateStep now gc i = gc := by
                  unfold propagateStep
                  rw [hgc]
                  dsimp only
                  rw [if_neg (by simp [ndUpd])]
                rw [hstep, hn m']
                cases hg1m : dget g1.nodes m' with
                | none => rfl
                | some nd' =>
                    by_cases hmi : m' = i
                    · subst hmi
                      simp [List.mem_append, hproc, hready]
                    · simp [List.mem_append, List.mem_singleton, hmi]
              · have hgc : dget gc.nodes i = some nd := by
                    rw [hgci, hg1i]
                    simp [hproc]
                have hallgc : (get_dependencies gc i).all
                    (fun d => decide (d.status = CompletionStatus.completed)) = true := by
                  rw [hdeps i]
                  exact hallg1
                have hstep : propagateStep now gc i =
                    { gc with nodes := dset gc.nodes i (ndUpd now nd) } := by
                  unfold propagateStep
                  rw [hgc]
                  dsimp only
                  rw [if_pos hb, if_pos hallgc]
                  rfl
                rw [hstep]
                show dget (dset gc.nodes i (ndUpd now nd)) m' = _
                rw [dget_dset]
                by_cases hmi : i = m'
                · rw [if_pos hmi, ← hmi, hg1i]
                  simp [List.mem_append, hready]
                · rw [if_neg hmi, hn m']
                  cases hg1m : dget g1.nodes m' with
                  | none => rfl
                  | some nd' =>
                      have hmi' : m' ≠ i := fun hc => hmi hc.symm
                      simp [List.mem_append, List.mem_singleton, hmi']
            · have hstep : propagateStep now gc i = gc := by
                unfold propagateStep
                have hgc : dget gc.nodes i = some (if i ∈ processed ∧ readyB g1 i = true
                    then ndUpd now nd else nd) := by rw [hgci, hg1i]; rfl
                rw [hgc]
                dsimp only
                have hnr : ¬ (i ∈ processed ∧ readyB g1 i = true) := fun hc => hready hc.2
                rw [if_neg hnr]
                by_cases hb : nd.status = CompletionStatus.blocked
                · rw [if_pos hb]
                  have hallfalse : ¬ ((get_dependencies gc i).all
                      (fun d => decide (d.status = CompletionStatus.completed)) = true) := by
                    rw [hdeps i]
                    intro hcon
                    refine hready ?_
                    unfold readyB
                    rw [hg1i]
                    simp [hb, hcon]
                  rw [if_neg hallfalse]
                · rw [if_neg hb]
              rw [hstep, hn m']
              cases hg1m : dget g1.nodes m' with
              | none => rfl
              | some nd' =>
                  by_cases hmi : m' = i
                  · subst hmi
                    rw [hg1m] at hg1i
                    injection hg1i with hg1i
                    subst hg1i
                    simp [List.mem_append, hready]
                  · simp [List.mem_append, List.mem_singleton, hmi]
      have hfr := propagateStep_frame now gc i
      have hres := ih (processed ++ [i]) (propagateStep now gc i)
        (hfr.1.trans he) (hfr.2.1.trans ha) (hfr.2.2.trans hr) hmain m
      rw [hres, List.append_assoc, List.singleton_append]

/-- C1: `update_status(n, completed)` sets n's status to `completed`, and
its only status effect on other nodes is to move each direct dependent
that is currently `blocked` with all direct dependencies now `completed`
to `not_started`; every other node keeps its status, and in particular
no node other than n ever becomes `completed`. -/
theorem C1_update_status_completed (g : Graph) (nid : String) (now : Datetime) (n : Node)
    (h : dget g.nodes nid = some n) :
    statusOf (update_status g nid CompletionStatus.completed now) nid =
      some CompletionStatus.completed ∧
    (∀ m, m ≠ nid →
      statusOf (update_status g nid CompletionStatus.completed now) m =
        if unlocksB (setNodeStatus g nid n CompletionStatus.completed now) nid m = true
        then some CompletionStatus.not_started
        else statusOf g m) ∧
    (∀ m, m ≠ nid →
      statusOf (update_status g nid CompletionStatus.completed now) m =
        some CompletionStatus.completed →
      statusOf g m = some CompletionStatus.completed) := by
  have hupd : update_status g nid CompletionStatus.completed now =
      propagate_completion (setNodeStatus g nid n CompletionStatus.completed now) nid now := by
    rw [update_status_some h, if_pos rfl]
  set g1 := setNodeStatus g nid n CompletionStatus.completed now with hg1
  have hchar := foldl_propagateStep_nodes now g1
    ((get_dependents g1 nid).map (fun n => n.id)) [] g1 rfl rfl rfl
    (by intro m; cases hx : dget g1.nodes m <;> simp)
  have hchar' : ∀ m, dget (update_status g nid CompletionStatus.completed now).nodes m =
      (dget g1.nodes m).map
        (fun nd => if m ∈ (get_dependents g1 nid).map (fun n => n.id) ∧
            readyB g1 m = true then ndUpd now nd else nd) := by
    intro m
    rw [hupd]
    have := hchar m
    rw [List.nil_append] at this
    exact this
  have hg1nid : dget g1.nodes nid =
      some ({ n with status := CompletionStatus.completed, updated_at := now }) := by
    rw [hg1]
    exact dget_dset_self _ _ _
  have hg1ne : ∀ m, m ≠ nid → dget g1.nodes m = dget g.nodes m := by
    intro m hm
    rw [hg1]
    exact dget_dset_ne _ _ _ _ (fun hc => hm hc.symm)
  have hready_nid : readyB g1 nid = false := by
    unfold readyB
    rw [hg1nid]
    simp
  refine ⟨?_, ?_, ?_⟩
  · unfold statusOf
    rw [hchar' nid, hg1nid]
    simp [hready_nid]
  · intro m hm
    unfold statusOf
    rw [hchar' m, hg1ne m hm]
    cases hgm : dget g.nodes m with
    | none =>
        have hr : readyB g1 m = false := by
          unfold readyB
          rw [hg1ne m hm, hgm]
          simp
        simp [unlocksB, hr]
    | some nd =>
        by_cases hu : m ∈ (get_dependents g1 nid).map (fun n => n.id) ∧ readyB g1 m = true
        · rw [if_pos (by simp [unlocksB, hu.1, hu.2])]
          simp [hu, ndUpd]
        · have hub : unlocksB g1 nid m = false := by
            unfold unlocksB
            rcases not_and_or.mp hu with hc | hc
            · simp [hc]
            · simp [Bool.eq_false_iff.mpr hc]
          rw [hub, if_neg (by simp)]
          simp only [Option.map_some']
          rw [if_neg hu]
  · intro m hm hcomp
    have h2 : statusOf (update_status g nid CompletionStatus.completed now) m =
        if unlocksB g1 nid m = true then some CompletionStatus.not_started
        else statusOf g m := by
      have := hchar' m
      unfold statusOf
      rw [this, hg1ne m hm]
      cases hgm : dget g.nodes m with
      | none =>
          have hr : readyB g1 m = false := by
            unfold readyB
            rw [hg1ne m hm, hgm]
            simp
          simp [unlocksB, hr]
      | some nd =>
          by_cases hu : m ∈ (get_dependents g1 nid).map (fun n => n.id) ∧ readyB g1 m = true
          · rw [if_pos (by simp [unlocksB, hu.1, hu.2])]
            simp [hu, ndUpd]
          · have hub : unlocksB g1 nid m = false := by
              unfold unlocksB
              rcases not_and_or.mp hu with hc | hc
              · simp [hc]
              · simp [Bool.eq_false_iff.mpr hc]
            rw [hub, if_neg (by simp)]
            simp only [Option.map_some']
            rw [if_neg hu]
    rw [h2] at hcomp
    by_cases hu : unlocksB g1 nid m = true
    · rw [if_pos hu] at hcomp
      simp at hcomp
    · rw [if_neg hu] at hcomp
      exact hcomp

/-- C1 fixture: `N` with one blocked dependent `D` whose only dependency
is `N`. -/
def gC1 : Graph :=
  add_edge (add_node (add_node emptyGraph (mkNode "N" CompletionStatus.not_started))
    (mkNode "D" CompletionStatus.blocked)) (mkDepEdge "eD" "D" "N")

theorem C1_witness :
    statusOf (update_status gC1 "N" CompletionStatus.completed epoch) "N" =
      some CompletionStatus.completed ∧
    statusOf (update_status gC1 "N" CompletionStatus.completed epoch) "D" =
      some CompletionStatus.not_started := by
  have h := C1_update_status_completed gC1 "N" epoch
    (mkNode "N" CompletionStatus.not_started) (by decide)
  refine ⟨h.1, ?_⟩
  have h2 := h.2.1 "D" (by decide)
  rw [h2, if_pos (by decide)]

end TenderSpec
